import Mathlib

/-
Verification of the image-acquisition pipeline of the mb-userscripts
repository, together with two standalone utilities of the repository
(the array chunking helper and the asynchronous memoiser of the
CAA-dimensions userscript).

The TypeScript sources are embedded shallowly: pure functions become Lean
functions, the stateful `ImageFetcher` becomes explicit state passing over
a `FetcherState`, asynchronous collaborators (network transport, provider
discovery, maximisation generators) become injected functional parameters
of an `Env` record, and fallible operations return `Except`.
-/

set_option autoImplicit false

namespace MB

/-! ## Array utilities (`src/lib/util/array.ts`) -/

/--
JavaScript `Array.prototype.slice(start, end)` on a list: negative indices
count from the end, out-of-range indices are clamped.
-/
def jsSlice {α : Type} (arr : List α) (start stop : Int) : List α :=
  let len : Int := arr.length
  let k := if start < 0 then max (len + start) 0 else min start len
  let fin := if stop < 0 then max (len + stop) 0 else min stop len
  (arr.drop k.toNat).take (fin - k).toNat

/--
One fuel-bounded run of the loop of `splitChunks`
(`for (let i = 0; i < arr.length; i += chunkSize) chunks.push(arr.slice(i, i + chunkSize))`).
Each fuel unit pays for one loop iteration; `none` means the loop was still
running when the fuel ran out, so `(∀ fuel, ... = none)` expresses divergence.
-/
def splitChunksGo {α : Type} (arr : List α) (chunkSize : Int) :
    Nat → Int → List (List α) → Option (List (List α))
  | 0, i, chunks =>
    if i < (arr.length : Int) then none else some chunks
  | fuel + 1, i, chunks =>
    if i < (arr.length : Int) then
      splitChunksGo arr chunkSize fuel (i + chunkSize) (chunks ++ [jsSlice arr i (i + chunkSize)])
    else some chunks

/--
`splitChunks(arr, chunkSize)` from `src/lib/util/array.ts`, as a fuel-bounded
loop starting from `i = 0` with an empty accumulator.
-/
def splitChunks {α : Type} (arr : List α) (chunkSize : Int) (fuel : Nat) :
    Option (List (List α)) :=
  splitChunksGo arr chunkSize fuel 0 []

/--
Reference chunking function: the value computed by the `splitChunks` loop for
a positive chunk size, by structural recursion on the list.
-/
def chunksOf {α : Type} (c : Nat) : List α → List (List α)
  | [] => []
  | a :: as => (a :: as.take (c - 1)) :: chunksOf c (as.drop (c - 1))
termination_by l => l.length
decreasing_by
  simp only [List.length_drop, List.length_cons]
  omega

/-! ## The asynchronous memoiser (`async_memoised` in the CAA-dimensions
userscript)

Promises are modelled by identifiers: each invocation of the wrapped function
`fn` creates one fresh promise, numbered by a counter.  The `cache` map of the
source becomes an association list from keys to promise identifiers, and the
`invocations` list records, in order, every key for which `fn` was actually
invoked.  The wrapper never consults the outcome (resolution or rejection) of
a cached promise — faithfully to the source, which stores the promise itself
and returns it unconditionally on a cache hit — so all statements below hold
independently of which promises later reject. -/

structure MemoState (K : Type) where
  cache : List (K × Nat)
  nextId : Nat
  invocations : List K

def memoLookup {K : Type} [DecidableEq K] (k : K) : List (K × Nat) → Option Nat
  | [] => none
  | (k', v) :: rest => if k' = k then some v else memoLookup k rest

/--
One call of the wrapper returned by `async_memoised(fn, keyFn)`: compute the
key from the arguments; on a cache hit return the stored promise unchanged,
otherwise invoke `fn` (creating a fresh promise), store it and return it.
-/
def wrapperCall {A K : Type} [DecidableEq K] (keyFn : A → K) (st : MemoState K)
    (args : A) : MemoState K × Nat :=
  let key := keyFn args
  match memoLookup key st.cache with
  | some p => (st, p)
  | none =>
    ({ cache := (key, st.nextId) :: st.cache, nextId := st.nextId + 1,
       invocations := st.invocations ++ [key] }, st.nextId)

/-- Run a sequence of wrapper calls, collecting the returned promises. -/
def runCalls {A K : Type} [DecidableEq K] (keyFn : A → K) :
    MemoState K → List A → MemoState K × List Nat
  | st, [] => (st, [])
  | st, a :: rest =>
    let r := wrapperCall keyFn st a
    let rs := runCalls keyFn r.1 rest
    (rs.1, r.2 :: rs.2)

def emptyMemoState (K : Type) : MemoState K :=
  { cache := [], nextId := 0, invocations := [] }

/-- The invariant of the memoiser: no key was ever invoked twice, and a key
was invoked exactly when the cache holds a promise for it. -/
def MemoInv {K : Type} [DecidableEq K] (st : MemoState K) : Prop :=
  st.invocations.Nodup ∧
  ∀ k : K, k ∈ st.invocations ↔ (memoLookup k st.cache).isSome

/-! ## The image-acquisition pipeline

The implementation of `ImageFetcher`
(`src/mb_enhanced_cover_art_uploads/fetch.ts`) is not part of this source
tree — only its test suite is.  The definitions below are therefore
modelled from the spec (sections 3, 4 and 7), with the test suite fixing the
observable behaviour wherever it speaks (error messages, filename shapes,
which second requests return empty results, when `findImages` re-runs).

URLs are href strings.  The environment `Env` packages the external
collaborators: the byte transport (indexed by a global fetch sequence number
so that time-varying network behaviour is expressible), the maximisation
candidate generator and the provider registry.  `FetcherState` is the
per-instance mutable state: the dedup set of resolved URLs, the fetch
counter, and a ghost trace of collaborator invocations used to state the
"no network call happens" parts of the spec. -/

abbrev URL := String

inductive ArtworkType where
  | front
  | back
  | booklet
  | medium
  | other
deriving DecidableEq

inductive ImageType where
  | png
  | jpeg
  | gif
deriving DecidableEq

def ImageType.mime : ImageType → String
  | .png => "image/png"
  | .jpeg => "image/jpeg"
  | .gif => "image/gif"

def ImageType.ext : ImageType → String
  | .png => "png"
  | .jpeg => "jpg"
  | .gif => "gif"

/--
Modelled from the spec: the content classifier (spec section 4.1; its
implementation is outside this source tree).  It inspects the leading bytes
of the body for a known binary signature and returns `none` (Unknown)
when no signature matches, never consulting a declared content type.
-/
def classify (bytes : List Nat) : Option ImageType :=
  if bytes.take 4 = [0x89, 0x50, 0x4E, 0x47] then some .png
  else if bytes.take 3 = [0xFF, 0xD8, 0xFF] then some .jpeg
  else if bytes.take 4 = [0x47, 0x49, 0x46, 0x38] then some .gif
  else none

structure ImageFile where
  name : String
  mimeType : String
deriving DecidableEq

structure ImageContents where
  requestedUrl : URL
  fetchedUrl : URL
  wasRedirected : Bool
  file : ImageFile
deriving DecidableEq

structure MaximisedImage where
  url : URL
  filename : String
  headers : List (String × String)
deriving DecidableEq

structure CoverArt where
  url : URL
  types : Option (List ArtworkType)
  comment : Option String
  skipMaximisation : Bool
deriving DecidableEq

structure FetchedImage where
  content : ImageFile
  originalUrl : URL
  maximisedUrl : URL
  fetchedUrl : URL
  wasMaximised : Bool
  wasRedirected : Bool
  types : Option (List ArtworkType)
  comment : Option String
deriving DecidableEq

structure FetchResult where
  images : List FetchedImage
  containerUrl : Option URL
deriving DecidableEq

structure FetchParams where
  url : URL
  types : Option (List ArtworkType)
  comment : Option String
deriving DecidableEq

inductive FetchError where
  | network
  | unsupportedContent (contentType : Option String)
  | discovery
deriving DecidableEq

/-- A transport response: the final (post-redirect) URL, the body bytes and
the declared Content-Type header, if any. -/
structure Response where
  finalUrl : URL
  bytes : List Nat
  contentType : Option String
deriving DecidableEq

/-- Ghost trace events: provider discovery invocations and byte fetches. -/
inductive Event where
  | findImagesCall (pageUrl : URL)
  | fetchContents (url : URL)
deriving DecidableEq

structure Provider where
  findImages : FetchParams → Except FetchError (List CoverArt)
  postprocessImage : Option (FetchedImage → Option FetchedImage)

structure Env where
  transport : Nat → URL → Except FetchError Response
  getMaximisedCandidates : URL → List MaximisedImage
  getProvider : URL → Option Provider

structure FetcherState where
  doneImages : List URL
  fetchCount : Nat
  trace : List Event
deriving DecidableEq

def initialState : FetcherState :=
  { doneImages := [], fetchCount := 0, trace := [] }

def digitChar : Nat → Char
  | 0 => '0'
  | 1 => '1'
  | 2 => '2'
  | 3 => '3'
  | 4 => '4'
  | 5 => '5'
  | 6 => '6'
  | 7 => '7'
  | 8 => '8'
  | 9 => '9'
  | _ => 'X'

/-- Digit characters of `n` in base 10, most significant first, by
structural recursion on a fuel bound (`n` itself is always enough fuel). -/
def natReprAux : Nat → Nat → List Char
  | 0, _ => []
  | _, 0 => []
  | fuel + 1, n + 1 =>
    natReprAux fuel ((n + 1) / 10) ++ [digitChar ((n + 1) % 10)]

/-- Decimal representation of a natural number: the embedding of the
JavaScript template interpolation of the numeric candidate id. -/
def natRepr (n : Nat) : String :=
  if n = 0 then "0" else String.mk (natReprAux n n)

def isWordChar (c : Char) : Bool := c.isAlphanum || c = '_'

/-- Removal of a trailing dot-extension of word characters from a file name
(the source strips it before inserting the unique id and the extension of
the classified type). -/
def stripExtension (s : String) : String :=
  let rev := s.data.reverse
  let ext := rev.takeWhile isWordChar
  if ext.isEmpty then s
  else
    match rev.drop ext.length with
    | '.' :: more => String.mk more.reverse
    | _ => s

/-- Last path segment of a URL, with the fallback name used by the source
when the URL has no usable basename. -/
def urlBasename (url : URL) (fallback : String) : String :=
  let seg := (url.data.reverse.takeWhile (fun c => c ≠ '/')).reverse
  if seg.isEmpty then fallback else String.mk seg

/-- File name assigned to a fetched image: base name, the candidate's
discovery index, and the extension of the classified image type. -/
def uniqueFilename (fileName : String) (id : Nat) (ty : ImageType) : String :=
  stripExtension fileName ++ "." ++ natRepr id ++ "." ++ ty.ext

/-- Rendering of a fetch error for diagnostics, as asserted by the test
suite: an unsupported body reports the declared content type, or
`unknown file type` when none was declared. -/
def describeError (fileName : String) : FetchError → String
  | .network => "Failed to retrieve image"
  | .discovery => "Failed to extract images"
  | .unsupportedContent ct =>
    "Expected \"" ++ fileName ++ "\" to be an image, but received "
      ++ ct.getD ("unknown file type") ++ "."

/--
Modelled from the spec: the core of `ImageFetcher.fetchImageContents`
(spec section 4.4, step 4) applied to a transport outcome.  On transport
failure the candidate fails with a NetworkError.  On success the body is
classified by signature (section 4.1); an unrecognised body fails with an
UnsupportedContentError carrying the declared content type.  A recognised
body yields the image contents, recording the final resolved URL and
whether a redirect occurred.
-/
def fetchImageContentsCore (url : URL) (fileName : String) (id : Nat)
    (r : Except FetchError Response) : Except FetchError ImageContents :=
  match r with
  | .error _ => .error .network
  | .ok resp =>
    match classify resp.bytes with
    | none => .error (.unsupportedContent resp.contentType)
    | some ty =>
      .ok { requestedUrl := url
            fetchedUrl := resp.finalUrl
            wasRedirected := decide (resp.finalUrl ≠ url)
            file := { name := uniqueFilename fileName id ty
                      mimeType := ty.mime } }

/--
Modelled from the spec: `ImageFetcher.fetchImageContents`.  The stateful
wrapper issues one transport call (consuming one slot of the global fetch
sequence and recording a ghost `fetchContents` event) and runs the core on
the outcome.  The headers are forwarded to the transport collaborator and
play no further role in the model.
-/
def fetchImageContents (env : Env) (st : FetcherState) (url : URL)
    (fileName : String) (id : Nat) (_headers : List (String × String)) :
    FetcherState × Except FetchError ImageContents :=
  ({ doneImages := st.doneImages
     fetchCount := st.fetchCount + 1
     trace := st.trace ++ [Event.fetchContents url] },
   fetchImageContentsCore url fileName id (env.transport st.fetchCount url))

/-- Outcome of walking the maximisation candidates of one URL. -/
inductive MaximiseResult where
  | dedupHit
  | success (contents : ImageContents) (maximisedUrl : URL)
  | exhausted
deriving DecidableEq

/--
Modelled from the spec: the maximisation phase of
`ImageFetcher.fetchImageFromURL` (spec section 4.4, step 3).  Candidates are
consumed most-preferred first; a candidate whose URL was already resolved
short-circuits the whole image (dedup, observable in the test suite as
`fetches nothing if maximised URL already fetched`); a fetch failure moves
on to the next candidate; a fetch success ends consumption.
-/
def tryCandidates (env : Env) (id : Nat) :
    FetcherState → List MaximisedImage → FetcherState × MaximiseResult
  | st, [] => (st, .exhausted)
  | st, mc :: rest =>
    if mc.url ∈ st.doneImages then (st, .dedupHit)
    else
      let fname := if mc.filename = "" then urlBasename mc.url ("image")
        else mc.filename
      match fetchImageContents env st mc.url fname id mc.headers with
      | (st', .ok contents) => (st', .success contents mc.url)
      | (st', .error _) => tryCandidates env id st' rest

/--
Modelled from the spec: the dedup commit (spec section 4.4, step 5).  The
resolved (post-redirect) URL is checked-and-marked atomically; a result whose
resolved URL was already claimed is discarded silently.  On commit the
resolved URL, the requested (maximised) URL and the original URL all enter
the dedup set.
-/
def commitImage (st : FetcherState) (originalUrl maximisedUrl : URL)
    (wasMaximised : Bool) (contents : ImageContents) :
    FetcherState × Option FetchedImage :=
  if contents.fetchedUrl ∈ st.doneImages then (st, none)
  else
    ({ doneImages := contents.fetchedUrl :: contents.requestedUrl
         :: originalUrl :: st.doneImages
       fetchCount := st.fetchCount
       trace := st.trace },
     some { content := contents.file
            originalUrl := originalUrl
            maximisedUrl := maximisedUrl
            fetchedUrl := contents.fetchedUrl
            wasMaximised := wasMaximised
            wasRedirected := contents.wasRedirected
            types := none
            comment := none })

/--
Modelled from the spec: `ImageFetcher.fetchImageFromURL` (spec section 4.4,
steps 3-5).  Maximisation is consulted unless skipped; if it is exhausted
without a success, the original unmaximised URL is fetched (subject to the
dedup check), and a fetch error there propagates to the caller (to be caught
at the per-candidate boundary of the provider flow).  `.ok none` means the
candidate produced nothing because of deduplication.
-/
def fetchImageFromURL (env : Env) (st : FetcherState) (url : URL) (id : Nat)
    (skipMaximisation : Bool) :
    FetcherState × Except FetchError (Option FetchedImage) :=
  let cands := if skipMaximisation then [] else env.getMaximisedCandidates url
  match tryCandidates env id st cands with
  | (st', .dedupHit) => (st', .ok none)
  | (st', .success contents mUrl) =>
    let r := commitImage st' url mUrl true contents
    (r.1, .ok r.2)
  | (st', .exhausted) =>
    if url ∈ st'.doneImages then (st', .ok none)
    else
      match fetchImageContents env st' url (urlBasename url ("image")) id [] with
      | (st'', .error e) => (st'', .error e)
      | (st'', .ok contents) =>
        let r := commitImage st'' url url false contents
        (r.1, .ok r.2)

def hasFrontType (c : CoverArt) : Bool :=
  decide (ArtworkType.front ∈ c.types.getD [])

/--
Modelled from the spec: front-only filtering (spec section 3, invariants):
if any candidate is classified front-type, only front-type candidates are
kept; otherwise only the first candidate by discovery order is kept.
Applied before any fetching.
-/
def retainOnlyFront (images : List CoverArt) : List CoverArt :=
  let fronts := images.filter hasFrontType
  if fronts.isEmpty then images.take 1 else fronts

/-- The candidates surviving front-only filtering (spec: filtering applies
only when the front-only flag is set). -/
def survivors (onlyFront : Bool) (cs : List CoverArt) : List CoverArt :=
  if onlyFront then retainOnlyFront cs else cs

/-- Pairing of candidates with their discovery indices. -/
def withIndices {α : Type} (start : Nat) : List α → List (Nat × α)
  | [] => []
  | a :: as => (start, a) :: withIndices (start + 1) as

def applyPostprocess (provider : Provider) (img : FetchedImage) :
    Option FetchedImage :=
  match provider.postprocessImage with
  | none => some img
  | some f => f img

/--
Modelled from the spec: the per-candidate loop of
`ImageFetcher.fetchImagesFromProvider` (spec section 4.4, steps 2-6 and the
propagation policy of section 7).  A candidate already resolved is skipped;
a per-candidate fetch error is caught here, removing only that candidate and
flagging the page as not fully exhausted; a dedup short-circuit and a
postprocessing veto remove the candidate silently without such a flag.
Results keep discovery order and take the candidate's types/comment.
-/
def processCandidates (env : Env) (provider : Provider) :
    FetcherState → List (Nat × CoverArt) →
    FetcherState × List FetchedImage × Bool
  | st, [] => (st, [], false)
  | st, (idx, img) :: rest =>
    if img.url ∈ st.doneImages then processCandidates env provider st rest
    else
      match fetchImageFromURL env st img.url idx img.skipMaximisation with
      | (st', .error _) =>
        let r := processCandidates env provider st' rest
        (r.1, r.2.1, true)
      | (st', .ok none) => processCandidates env provider st' rest
      | (st', .ok (some fi)) =>
        match applyPostprocess provider
            { fi with types := img.types, comment := img.comment } with
        | none => processCandidates env provider st' rest
        | some fi' =>
          let r := processCandidates env provider st' rest
          (r.1, fi' :: r.2.1, r.2.2)

/--
Modelled from the spec: `ImageFetcher.fetchImagesFromProvider` (spec section
4.4, step 2).  Discovery runs (recording a ghost `findImagesCall` event); a
DiscoveryError propagates to the caller.  Front-only filtering is applied
before any fetching; the surviving candidates are processed in discovery
order; the page URL joins the dedup set only when no candidate failed, so
that a partially exhausted page is re-scanned by later requests.
-/
def fetchImagesFromProvider (env : Env) (st : FetcherState)
    (params : FetchParams) (provider : Provider) (onlyFront : Bool) :
    FetcherState × Except FetchError FetchResult :=
  let st0 : FetcherState :=
    { doneImages := st.doneImages
      fetchCount := st.fetchCount
      trace := st.trace ++ [Event.findImagesCall params.url] }
  match provider.findImages params with
  | .error e => (st0, .error e)
  | .ok images =>
    let finalImages := survivors onlyFront images
    let r := processCandidates env provider st0 (withIndices 0 finalImages)
    let st2 : FetcherState :=
      if r.2.2 then r.1
      else
        { doneImages := params.url :: r.1.doneImages
          fetchCount := r.1.fetchCount
          trace := r.1.trace }
    (st2, .ok { images := r.2.1, containerUrl := some params.url })

/--
Modelled from the spec: `ImageFetcher.fetchImages` (spec section 4.4,
step 1).  A URL already resolved yields an empty result immediately, with no
collaborator invocation.  Otherwise a provider-backed URL delegates to the
provider flow; a bare URL is fetched as a single direct image candidate
(id 0), yielding a result without a `containerUrl`.
-/
def fetchImages (env : Env) (st : FetcherState) (params : FetchParams)
    (onlyFront : Bool) : FetcherState × Except FetchError FetchResult :=
  if params.url ∈ st.doneImages then
    (st, .ok { images := [], containerUrl := none })
  else
    match env.getProvider params.url with
    | some provider => fetchImagesFromProvider env st params provider onlyFront
    | none =>
      match fetchImageFromURL env st params.url 0 false with
      | (st', .error e) => (st', .error e)
      | (st', .ok none) => (st', .ok { images := [], containerUrl := none })
      | (st', .ok (some img)) =>
        let img' := { img with types := params.types, comment := params.comment }
        (st', .ok { images := [img'], containerUrl := none })

/-! ### Basic lemmas about the fetcher model -/

/-- A body carrying the PNG signature, used as the default test vector. -/
def pngBytes : List Nat := [0x89, 0x50, 0x4E, 0x47]

/-! ### A fully successful provider run

The following lemmas compute the model exactly in the scenario the test
suite calls the dummy fetch: the transport answers every request with a PNG
body at the requested URL itself (no redirects), maximisation yields no
candidates, and the provider does not postprocess. -/

/-- The image produced for candidate `c` at discovery index `idx` under the
dummy transport. -/
def expectedImage (idx : Nat) (c : CoverArt) : FetchedImage :=
  { content := { name := uniqueFilename (urlBasename c.url ("image")) idx .png
                 mimeType := "image/png" }
    originalUrl := c.url
    maximisedUrl := c.url
    fetchedUrl := c.url
    wasMaximised := false
    wasRedirected := false
    types := c.types
    comment := c.comment }

def expectedImages : Nat → List CoverArt → List FetchedImage
  | _, [] => []
  | k, c :: cs => expectedImage k c :: expectedImages (k + 1) cs

/-- The fetcher state after a successful dummy fetch of `url`. -/
def allOkState (st : FetcherState) (url : URL) : FetcherState :=
  { doneImages := url :: url :: url :: st.doneImages
    fetchCount := st.fetchCount + 1
    trace := st.trace ++ [Event.fetchContents url] }

/-- The raw fetched image (before candidate types/comment are attached)
produced by a successful dummy fetch of `url` at index `id`. -/
def rawExpectedImage (id : Nat) (url : URL) : FetchedImage :=
  { content := { name := uniqueFilename (urlBasename url ("image")) id .png
                 mimeType := "image/png" }
    originalUrl := url
    maximisedUrl := url
    fetchedUrl := url
    wasMaximised := false
    wasRedirected := false
    types := none
    comment := none }

/-! ### Step equations and failure paths -/

/-- The state after one transport call for `url`. -/
def bumpState (st : FetcherState) (url : URL) : FetcherState :=
  { doneImages := st.doneImages
    fetchCount := st.fetchCount + 1
    trace := st.trace ++ [Event.fetchContents url] }

/-- A fetch attempt that fails for the maximisation cascade: a transport
error or a body matching no known image signature (spec section 4.4,
step 3). -/
def attemptFails (r : Except FetchError Response) : Prop :=
  match r with
  | .error _ => True
  | .ok resp => classify resp.bytes = none

/-- The candidate file name used by the maximisation cascade. -/
def candidateName (mc : MaximisedImage) : String :=
  if mc.filename = "" then urlBasename mc.url ("image") else mc.filename

/-- The contents produced by a successful fetch of `url` answered by `resp`
whose body classifies as `ty`. -/
def mkContents (url : URL) (fileName : String) (id : Nat) (resp : Response)
    (ty : ImageType) : ImageContents :=
  { requestedUrl := url
    fetchedUrl := resp.finalUrl
    wasRedirected := decide (resp.finalUrl ≠ url)
    file := { name := uniqueFilename fileName id ty, mimeType := ty.mime } }

/-- An environment whose maximiser offers `m1` (always failing) and `m2`
(serving a PNG) for the URL `orig`. -/
def maxChainEnv : Env :=
  { transport := fun _ u =>
      if u = ("m1") then .error .network
      else .ok { finalUrl := u, bytes := pngBytes, contentType := none }
    getMaximisedCandidates := fun u =>
      if u = ("orig") then
        [{ url := ("m1"), filename := ("1.png"), headers := [] },
         { url := ("m2"), filename := "", headers := [] }]
      else []
    getProvider := fun _ => none }

def exU1 : CoverArt :=
  { url := ("u1"), types := none, comment := none, skipMaximisation := false }

def exU2 : CoverArt :=
  { url := ("u2"), types := none, comment := none, skipMaximisation := false }

/-- A provider whose discovery always yields the candidates `u1` and `u2`. -/
def exPageProvider : Provider :=
  { findImages := fun _ => .ok [exU1, exU2], postprocessImage := none }

def exPageParams : FetchParams :=
  { url := ("page"), types := none, comment := none }

/-- An environment with one provider page `page` listing the images `u1` and
`u2`, over a transport that always serves a PNG at the requested URL. -/
def okProviderEnv : Env :=
  { transport := fun _ u =>
      .ok { finalUrl := u, bytes := pngBytes, contentType := none }
    getMaximisedCandidates := fun _ => []
    getProvider := fun u =>
      if u = ("page") then some exPageProvider else none }

/-- The environment of the repository's own re-fetch test: the provider page
`page` lists `u1` and `u2`, and the transport fails its very first call
(so the first fetch of `u1` fails) and succeeds afterwards. -/
def flakyPageEnv : Env :=
  { transport := fun n u =>
      if n = 0 then .error .network
      else .ok { finalUrl := u, bytes := pngBytes, contentType := none }
    getMaximisedCandidates := fun _ => []
    getProvider := fun u => if u = ("page") then some exPageProvider else none }

def flakyFirstCall : FetcherState × Except FetchError FetchResult :=
  fetchImages flakyPageEnv initialState exPageParams false

def flakySecondCall : FetcherState × Except FetchError FetchResult :=
  fetchImages flakyPageEnv flakyFirstCall.1 exPageParams false

theorem chunksOf_flatten {α : Type} (c : Nat) (l : List α) :
    (MB.chunksOf c l).flatten = l := by
  induction l using MB.chunksOf.induct c with
  | case1 => simp [MB.chunksOf]
  | case2 a as ih =>
    simp only [MB.chunksOf, List.flatten_cons, ih, List.cons_append,
      List.take_append_drop]

theorem chunksOf_ne_nil {α : Type} (c : Nat) (l : List α) (hl : l ≠ []) :
    MB.chunksOf c l ≠ [] := by
  cases l with
  | nil => exact absurd rfl hl
  | cons a as => simp [MB.chunksOf]

theorem chunksOf_mem_ne_nil {α : Type} (c : Nat) (l : List α) :
    ∀ ch ∈ MB.chunksOf c l, ch ≠ [] := by
  induction l using MB.chunksOf.induct c with
  | case1 => simp [MB.chunksOf]
  | case2 a as ih =>
    intro ch h
    simp only [MB.chunksOf, List.mem_cons] at h
    rcases h with h | h
    · subst h; simp
    · exact ih ch h

theorem chunksOf_dropLast_length {α : Type} (c : Nat) (hc : 1 ≤ c) (l : List α) :
    ∀ ch ∈ (MB.chunksOf c l).dropLast, ch.length = c := by
  induction l using MB.chunksOf.induct c with
  | case1 => simp [MB.chunksOf]
  | case2 a as ih =>
    intro ch h
    rw [MB.chunksOf] at h
    cases hrest : MB.chunksOf c (as.drop (c - 1)) with
    | nil => rw [hrest] at h; cases h
    | cons r rs =>
      rw [hrest, List.dropLast_cons_of_ne_nil (by simp)] at h
      rcases List.mem_cons.mp h with h | h
      · subst h
        have hne : as.drop (c - 1) ≠ [] := by
          intro hnil
          rw [hnil] at hrest
          simp [MB.chunksOf] at hrest
        have hlen : c - 1 ≤ as.length := by
          by_contra hlt
          exact hne (List.drop_eq_nil_iff.mpr (by omega))
        simp only [List.length_cons, List.length_take]
        omega
      · exact ih ch (hrest ▸ h)

theorem chunksOf_eq_take_cons {α : Type} (c : Nat) (hc : 1 ≤ c) (l : List α)
    (hl : l ≠ []) : MB.chunksOf c l = l.take c :: MB.chunksOf c (l.drop c) := by
  cases l with
  | nil => exact absurd rfl hl
  | cons a as =>
    obtain ⟨c', rfl⟩ : ∃ c', c = c' + 1 := ⟨c - 1, by omega⟩
    simp [MB.chunksOf, List.take_succ_cons, List.drop_succ_cons]

theorem jsSlice_chunk {α : Type} (arr : List α) (i c : Int) (hi : 0 ≤ i)
    (hilen : i < (arr.length : Int)) (hc : 1 ≤ c) :
    MB.jsSlice arr i (i + c) = (arr.drop i.toNat).take c.toNat := by
  have h0 : ¬ i < 0 := by omega
  have h1 : ¬ i + c < 0 := by omega
  simp only [MB.jsSlice, h0, h1, if_false]
  have h2 : i ⊓ (arr.length : Int) = i := min_eq_left (by omega)
  rw [h2, List.take_eq_take]
  simp only [List.length_drop]
  omega

theorem splitChunksGo_pos {α : Type} (arr : List α) (c : Int) (hc : 1 ≤ c) :
    ∀ (fuel : Nat) (i : Int) (chunks : List (List α)), 0 ≤ i →
      arr.length - i.toNat ≤ fuel →
      MB.splitChunksGo arr c fuel i chunks
        = some (chunks ++ MB.chunksOf c.toNat (arr.drop i.toNat)) := by
  intro fuel
  induction fuel with
  | zero =>
    intro i chunks hi hfuel
    have hguard : ¬ i < (arr.length : Int) := by omega
    rw [MB.splitChunksGo, if_neg hguard]
    rw [List.drop_eq_nil_iff.mpr (by omega)]
    simp [MB.chunksOf]
  | succ fuel ih =>
    intro i chunks hi hfuel
    by_cases hguard : i < (arr.length : Int)
    · rw [MB.splitChunksGo, if_pos hguard]
      rw [ih (i + c) _ (by omega) (by omega)]
      have hne : arr.drop i.toNat ≠ [] := by
        intro hnil
        have := List.drop_eq_nil_iff.mp hnil
        omega
      rw [jsSlice_chunk arr i c hi hguard hc,
        chunksOf_eq_take_cons c.toNat (by omega) _ hne]
      rw [List.drop_drop]
      have : i.toNat + c.toNat = (i + c).toNat := by omega
      rw [this]
      simp
    · rw [MB.splitChunksGo, if_neg hguard]
      rw [List.drop_eq_nil_iff.mpr (by omega)]
      simp [MB.chunksOf]

theorem splitChunksGo_nonpos {α : Type} (arr : List α) (c : Int) (hc : c ≤ 0)
    (hl : arr ≠ []) :
    ∀ (fuel : Nat) (i : Int) (chunks : List (List α)), i ≤ 0 →
      MB.splitChunksGo arr c fuel i chunks = none := by
  have hlen : 0 < arr.length := List.length_pos.mpr hl
  intro fuel
  induction fuel with
  | zero =>
    intro i chunks hi
    rw [MB.splitChunksGo, if_pos (by omega)]
  | succ fuel ih =>
    intro i chunks hi
    rw [MB.splitChunksGo, if_pos (by omega)]
    exact ih (i + c) _ (by omega)

/--
C10: for every array `arr` and every `chunkSize ≥ 1`, the `splitChunks` loop
terminates (any fuel of at least `arr.length` iterations suffices) and returns
`chunksOf chunkSize arr`, in which every chunk except possibly the last has
length exactly `chunkSize`, every chunk (in particular the last) is non-empty,
the chunk list is non-empty when `arr` is, and concatenating the chunks yields
`arr`; for `chunkSize ≤ 0` on a non-empty array the loop never terminates
(it is still running after any amount of fuel).
-/
theorem splitChunks_spec {α : Type} (arr : List α) (c : Int) (fuel : Nat) :
    (1 ≤ c → arr.length ≤ fuel →
      MB.splitChunks arr c fuel = some (MB.chunksOf c.toNat arr) ∧
      (∀ ch ∈ (MB.chunksOf c.toNat arr).dropLast, ch.length = c.toNat) ∧
      (∀ ch ∈ MB.chunksOf c.toNat arr, ch ≠ []) ∧
      (arr ≠ [] → MB.chunksOf c.toNat arr ≠ []) ∧
      (MB.chunksOf c.toNat arr).flatten = arr) ∧
    (c ≤ 0 → arr ≠ [] → MB.splitChunks arr c fuel = none) := by
  constructor
  · intro hc hfuel
    refine ⟨?_, chunksOf_dropLast_length c.toNat (by omega) arr,
      chunksOf_mem_ne_nil c.toNat arr, chunksOf_ne_nil c.toNat arr,
      chunksOf_flatten c.toNat arr⟩
    rw [MB.splitChunks, splitChunksGo_pos arr c hc fuel 0 [] le_rfl (by omega)]
    simp
  · intro hc hl
    exact splitChunksGo_nonpos arr c hc hl fuel 0 [] le_rfl

/--
Witness for C10 at concrete inputs: `splitChunks [1,2,3] 2` terminates with
chunks `[[1,2],[3]]`, while `splitChunks [1] (-1)` is still running after
5 iterations of fuel.
-/
theorem splitChunks_spec_witness :
    MB.splitChunks ([1, 2, 3] : List Nat) 2 3 = some [[1, 2], [3]] ∧
    MB.splitChunks ([1] : List Nat) (-1) 5 = none := by
  constructor
  · have h := ((splitChunks_spec ([1, 2, 3] : List Nat) 2 3).1
      (by decide) (by decide)).1
    rw [h]
    simp [MB.chunksOf]
  · exact (splitChunks_spec ([1] : List Nat) (-1) 5).2 (by decide) (by decide)

theorem wrapperCall_lookup_stable {A K : Type} [DecidableEq K] (keyFn : A → K)
    (st : MemoState K) (a : A) (k : K) (p : Nat)
    (h : memoLookup k st.cache = some p) :
    memoLookup k (wrapperCall keyFn st a).1.cache = some p := by
  cases hl : memoLookup (keyFn a) st.cache with
  | some q => simp only [wrapperCall, hl]; exact h
  | none =>
    simp only [wrapperCall, hl, memoLookup]
    by_cases hk : keyFn a = k
    · rw [hk] at hl; rw [hl] at h; cases h
    · simp [hk, h]

theorem runCalls_lookup_stable {A K : Type} [DecidableEq K] (keyFn : A → K)
    (calls : List A) (st : MemoState K) (k : K) (p : Nat)
    (h : memoLookup k st.cache = some p) :
    memoLookup k (runCalls keyFn st calls).1.cache = some p := by
  induction calls generalizing st with
  | nil => exact h
  | cons a rest ih =>
    exact ih _ (wrapperCall_lookup_stable keyFn st a k p h)

theorem wrapperCall_lookup_self {A K : Type} [DecidableEq K] (keyFn : A → K)
    (st : MemoState K) (a : A) :
    memoLookup (keyFn a) (wrapperCall keyFn st a).1.cache
      = some (wrapperCall keyFn st a).2 := by
  cases hl : memoLookup (keyFn a) st.cache with
  | some q => simp only [wrapperCall, hl]
  | none => simp [wrapperCall, hl, memoLookup]

/-- Each returned promise is the one the final cache holds for its key. -/
theorem runCalls_result_lookup {A K : Type} [DecidableEq K] (keyFn : A → K)
    (calls : List A) :
    ∀ (st : MemoState K) (i : Fin calls.length),
      memoLookup (keyFn (calls.get i)) (runCalls keyFn st calls).1.cache
        = some ((runCalls keyFn st calls).2.getD i 0) := by
  induction calls with
  | nil => intro st i; exact absurd i.isLt (by simp)
  | cons a rest ih =>
    intro st i
    match i with
    | ⟨0, _⟩ =>
      simp only [List.get, runCalls, List.getD, List.getElem?_cons_zero,
        Option.getD_some]
      exact runCalls_lookup_stable keyFn rest _ _ _
        (wrapperCall_lookup_self keyFn st a)
    | ⟨j + 1, hj⟩ =>
      have hj' : j < rest.length := by simpa using hj
      simpa [runCalls, List.getD] using ih (wrapperCall keyFn st a).1 ⟨j, hj'⟩

theorem wrapperCall_inv {A K : Type} [DecidableEq K] (keyFn : A → K)
    (st : MemoState K) (a : A) (h : MemoInv st) :
    MemoInv (wrapperCall keyFn st a).1 := by
  obtain ⟨hnd, hiff⟩ := h
  cases hl : memoLookup (keyFn a) st.cache with
  | some q => simp only [MemoInv, wrapperCall, hl]; exact ⟨hnd, hiff⟩
  | none =>
    have hmem : keyFn a ∉ st.invocations := by
      rw [hiff, hl]
      simp
    constructor
    · simp only [wrapperCall, hl]
      rw [List.nodup_append]
      refine ⟨hnd, List.nodup_singleton _, ?_⟩
      intro x hx hxa
      rw [List.mem_singleton] at hxa
      exact hmem (hxa ▸ hx)
    · intro k
      simp only [wrapperCall, hl]
      by_cases hk : keyFn a = k
      · subst hk
        simp [memoLookup]
      · simp only [List.mem_append, List.mem_singleton, memoLookup,
          if_neg hk]
        rw [hiff k]
        have hne : ¬ k = keyFn a := fun hh => hk hh.symm
        simp [hne]

theorem runCalls_inv {A K : Type} [DecidableEq K] (keyFn : A → K)
    (calls : List A) :
    ∀ (st : MemoState K), MemoInv st → MemoInv (runCalls keyFn st calls).1 := by
  induction calls with
  | nil => intro st h; exact h
  | cons a rest ih =>
    intro st h
    exact ih _ (wrapperCall_inv keyFn st a h)

/--
C9: memoisation is at-most-once.  Running any sequence of calls through the
wrapper produced by `async_memoised` starting from the fresh (empty) state,
(a) the wrapped function is invoked at most once per key — the invocation log
is duplicate-free, so every key has invocation count at most 1 — and (b) any
two calls whose arguments map to the same key return the identical promise,
the one created by the first such call.  The wrapper never consults promise
outcomes, so this holds even when the first promise rejects: in particular a
failed `loadImageDimensions(url)` (whose key function is `(url, ...args) =>
url`) is never retried for the same `url` within one page lifetime.
-/
theorem async_memoised_spec {A K : Type} [DecidableEq K] (keyFn : A → K)
    (calls : List A) :
    (runCalls keyFn (emptyMemoState K) calls).1.invocations.Nodup ∧
    (∀ k : K, (runCalls keyFn (emptyMemoState K) calls).1.invocations.count k ≤ 1) ∧
    (∀ i j : Fin calls.length, keyFn (calls.get i) = keyFn (calls.get j) →
      (runCalls keyFn (emptyMemoState K) calls).2.getD i 0
        = (runCalls keyFn (emptyMemoState K) calls).2.getD j 0) := by
  have hinv : MemoInv (runCalls keyFn (emptyMemoState K) calls).1 := by
    refine runCalls_inv keyFn calls _ ⟨List.nodup_nil, ?_⟩
    intro k
    simp [emptyMemoState, memoLookup]
  refine ⟨hinv.1, fun k => List.nodup_iff_count_le_one.mp hinv.1 k, ?_⟩
  intro i j hkey
  have hi := runCalls_result_lookup keyFn calls (emptyMemoState K) i
  have hj := runCalls_result_lookup keyFn calls (emptyMemoState K) j
  rw [hkey] at hi
  rw [hi] at hj
  exact Option.some_injective _ hj

/--
Witness for C9 at a concrete run: keys are the arguments themselves and the
third call repeats the first key, so the first and third calls return the
same promise and the invocation log `[5, 7]` is duplicate-free.
-/
theorem async_memoised_spec_witness :
    (runCalls (fun (k : Nat) => k) (emptyMemoState Nat) [5, 7, 5]).1.invocations.Nodup ∧
    (runCalls (fun (k : Nat) => k) (emptyMemoState Nat) [5, 7, 5]).2.getD 0 0
      = (runCalls (fun (k : Nat) => k) (emptyMemoState Nat) [5, 7, 5]).2.getD 2 0 := by
  have h := async_memoised_spec (fun (k : Nat) => k) [5, 7, 5]
  exact ⟨h.1, h.2.2 ⟨0, by decide⟩ ⟨2, by decide⟩ (by decide)⟩

theorem classify_pngBytes : classify pngBytes = some ImageType.png := by decide

theorem fetchImageContents_eq (env : Env) (st : FetcherState) (url : URL)
    (fileName : String) (id : Nat) (headers : List (String × String)) :
    fetchImageContents env st url fileName id headers =
      ({ doneImages := st.doneImages
         fetchCount := st.fetchCount + 1
         trace := st.trace ++ [Event.fetchContents url] },
       fetchImageContentsCore url fileName id (env.transport st.fetchCount url)) :=
  rfl

theorem tryCandidates_doneImages (env : Env) (id : Nat) :
    ∀ (cands : List MaximisedImage) (st : FetcherState),
      (tryCandidates env id st cands).1.doneImages = st.doneImages := by
  intro cands
  induction cands with
  | nil => intro st; rfl
  | cons mc rest ih =>
    intro st
    rw [tryCandidates]
    by_cases hmem : mc.url ∈ st.doneImages
    · rw [if_pos hmem]
    · rw [if_neg hmem]
      cases hc : fetchImageContentsCore mc.url
          (if mc.filename = "" then urlBasename mc.url ("image") else mc.filename)
          id (env.transport st.fetchCount mc.url) with
      | ok contents => simp only [fetchImageContents_eq, hc]
      | error e => simp only [fetchImageContents_eq, hc]; exact ih _

theorem commitImage_doneImages_mono (st : FetcherState)
    (originalUrl maximisedUrl : URL) (wasMaximised : Bool)
    (contents : ImageContents) (x : URL) (hx : x ∈ st.doneImages) :
    x ∈ (commitImage st originalUrl maximisedUrl wasMaximised contents).1.doneImages := by
  rw [commitImage]
  by_cases h : contents.fetchedUrl ∈ st.doneImages
  · rw [if_pos h]; exact hx
  · rw [if_neg h]
    simp only [List.mem_cons]
    exact Or.inr (Or.inr (Or.inr hx))

theorem commitImage_trace (st : FetcherState) (originalUrl maximisedUrl : URL)
    (wasMaximised : Bool) (contents : ImageContents) :
    (commitImage st originalUrl maximisedUrl wasMaximised contents).1.trace
      = st.trace := by
  rw [commitImage]
  by_cases h : contents.fetchedUrl ∈ st.doneImages
  · rw [if_pos h]
  · rw [if_neg h]

theorem commitImage_some (st : FetcherState) (originalUrl maximisedUrl : URL)
    (wasMaximised : Bool) (contents : ImageContents) (img : FetchedImage)
    (h : (commitImage st originalUrl maximisedUrl wasMaximised contents).2
      = some img) :
    originalUrl ∈ (commitImage st originalUrl maximisedUrl wasMaximised
        contents).1.doneImages ∧
    img.fetchedUrl ∈ (commitImage st originalUrl maximisedUrl wasMaximised
        contents).1.doneImages ∧
    img.originalUrl = originalUrl ∧ img.maximisedUrl = maximisedUrl ∧
    img.wasMaximised = wasMaximised ∧ img.fetchedUrl = contents.fetchedUrl ∧
    img.wasRedirected = contents.wasRedirected ∧ img.content = contents.file := by
  rw [commitImage] at h ⊢
  by_cases hmem : contents.fetchedUrl ∈ st.doneImages
  · rw [if_pos hmem] at h; cases h
  · rw [if_neg hmem] at h ⊢
    cases h
    simp

theorem fetchImageFromURL_done_mono (env : Env) (st : FetcherState) (url : URL)
    (id : Nat) (skipMaximisation : Bool) (x : URL) (hx : x ∈ st.doneImages) :
    x ∈ (fetchImageFromURL env st url id skipMaximisation).1.doneImages := by
  have hdone := tryCandidates_doneImages env id
    (if skipMaximisation then [] else env.getMaximisedCandidates url) st
  rw [fetchImageFromURL]
  split
  next st' heq =>
    rw [heq] at hdone
    exact hdone ▸ hx
  next st' contents mUrl heq =>
    rw [heq] at hdone
    exact commitImage_doneImages_mono st' url mUrl true contents x (hdone ▸ hx)
  next st' heq =>
    rw [heq] at hdone
    split
    next hmem => exact hdone ▸ hx
    next hmem =>
      split
      next st'' e heq2 =>
        rw [fetchImageContents_eq] at heq2
        injection heq2 with hA hB
        subst hA
        exact hdone ▸ hx
      next st'' contents heq2 =>
        rw [fetchImageContents_eq] at heq2
        injection heq2 with hA hB
        subst hA
        exact commitImage_doneImages_mono _ url url false contents x (hdone ▸ hx)

theorem processCandidates_done_mono (env : Env) (provider : Provider) :
    ∀ (pairs : List (Nat × CoverArt)) (st : FetcherState) (x : URL),
      x ∈ st.doneImages →
      x ∈ (processCandidates env provider st pairs).1.doneImages := by
  intro pairs
  induction pairs with
  | nil => intro st x hx; exact hx
  | cons p rest ih =>
    intro st x hx
    obtain ⟨idx, img⟩ := p
    rw [processCandidates]
    split
    next hmem => exact ih st x hx
    next hmem =>
      have hmono := fetchImageFromURL_done_mono env st img.url idx
        img.skipMaximisation x hx
      split
      next st' e heq =>
        rw [heq] at hmono
        exact ih st' x hmono
      next st' heq =>
        rw [heq] at hmono
        exact ih st' x hmono
      next st' fi heq =>
        rw [heq] at hmono
        split
        next happ => exact ih st' x hmono
        next fi' happ => exact ih st' x hmono

theorem tryCandidates_trace (env : Env) (id : Nat) :
    ∀ (cands : List MaximisedImage) (st : FetcherState),
      ∃ delta, (tryCandidates env id st cands).1.trace = st.trace ++ delta ∧
        ∀ e ∈ delta, ∃ mc ∈ cands, e = Event.fetchContents mc.url ∧
          mc.url ∉ st.doneImages := by
  intro cands
  induction cands with
  | nil =>
    intro st
    exact ⟨[], by simp [tryCandidates], by simp⟩
  | cons mc rest ih =>
    intro st
    rw [tryCandidates]
    by_cases hmem : mc.url ∈ st.doneImages
    · rw [if_pos hmem]
      exact ⟨[], by simp, by simp⟩
    · rw [if_neg hmem]
      cases hc : fetchImageContentsCore mc.url
          (if mc.filename = "" then urlBasename mc.url ("image") else mc.filename)
          id (env.transport st.fetchCount mc.url) with
      | ok contents =>
        simp only [fetchImageContents_eq, hc]
        refine ⟨[Event.fetchContents mc.url], rfl, ?_⟩
        intro e he
        rw [List.mem_singleton] at he
        exact ⟨mc, List.mem_cons_self mc rest, he, hmem⟩
      | error er =>
        simp only [fetchImageContents_eq, hc]
        obtain ⟨delta, hdelta, hev⟩ := ih
          { doneImages := st.doneImages
            fetchCount := st.fetchCount + 1
            trace := st.trace ++ [Event.fetchContents mc.url] }
        refine ⟨Event.fetchContents mc.url :: delta, ?_, ?_⟩
        · rw [hdelta]
          simp
        · intro e he
          rcases List.mem_cons.mp he with he | he
          · exact ⟨mc, List.mem_cons_self mc rest, he, hmem⟩
          · obtain ⟨mc', hmc', hmc'e, hmc'mem⟩ := hev e he
            exact ⟨mc', List.mem_cons_of_mem mc hmc', hmc'e, hmc'mem⟩

theorem fetchImageFromURL_trace (env : Env) (st : FetcherState) (url : URL)
    (id : Nat) (skipMaximisation : Bool) :
    ∃ delta, (fetchImageFromURL env st url id skipMaximisation).1.trace
        = st.trace ++ delta ∧
      ∀ e ∈ delta, ∃ w, e = Event.fetchContents w ∧ w ∉ st.doneImages ∧
        (w = url ∨ ∃ mc ∈ env.getMaximisedCandidates url, w = mc.url) := by
  have hdone := tryCandidates_doneImages env id
    (if skipMaximisation then [] else env.getMaximisedCandidates url) st
  obtain ⟨delta, hdelta, hev⟩ := tryCandidates_trace env id
    (if skipMaximisation then [] else env.getMaximisedCandidates url) st
  have hev' : ∀ e ∈ delta, ∃ w, e = Event.fetchContents w ∧ w ∉ st.doneImages ∧
      (w = url ∨ ∃ mc ∈ env.getMaximisedCandidates url, w = mc.url) := by
    intro e he
    obtain ⟨mc, hmc, hmce, hmcmem⟩ := hev e he
    refine ⟨mc.url, hmce, hmcmem, Or.inr ⟨mc, ?_, rfl⟩⟩
    cases hskip : skipMaximisation with
    | true => rw [hskip] at hmc; cases hmc
    | false => rw [hskip] at hmc; exact hmc
  rw [fetchImageFromURL]
  split
  next st' heq =>
    rw [heq] at hdelta
    exact ⟨delta, hdelta, hev'⟩
  next st' contents mUrl heq =>
    rw [heq] at hdelta
    rw [commitImage_trace]
    exact ⟨delta, hdelta, hev'⟩
  next st' heq =>
    rw [heq] at hdelta hdone
    have hdelta2 : st'.trace = st.trace ++ delta := hdelta
    split
    next hmem => exact ⟨delta, hdelta, hev'⟩
    next hmem =>
      have hurl : url ∉ st.doneImages := hdone ▸ hmem
      split
      next st'' e2 heq2 =>
        rw [fetchImageContents_eq] at heq2
        injection heq2 with hA hB
        subst hA
        refine ⟨delta ++ [Event.fetchContents url], ?_, ?_⟩
        · rw [hdelta2, List.append_assoc]
        · intro e he
          rcases List.mem_append.mp he with he | he
          · exact hev' e he
          · rw [List.mem_singleton] at he
            exact ⟨url, he, hurl, Or.inl rfl⟩
      next st'' contents heq2 =>
        rw [fetchImageContents_eq] at heq2
        injection heq2 with hA hB
        subst hA
        rw [commitImage_trace]
        refine ⟨delta ++ [Event.fetchContents url], ?_, ?_⟩
        · rw [hdelta2, List.append_assoc]
        · intro e he
          rcases List.mem_append.mp he with he | he
          · exact hev' e he
          · rw [List.mem_singleton] at he
            exact ⟨url, he, hurl, Or.inl rfl⟩

theorem processCandidates_trace (env : Env) (provider : Provider) :
    ∀ (pairs : List (Nat × CoverArt)) (st : FetcherState),
      ∃ delta, (processCandidates env provider st pairs).1.trace
          = st.trace ++ delta ∧
        ∀ e ∈ delta, ∃ w, e = Event.fetchContents w ∧ w ∉ st.doneImages ∧
          ∃ p ∈ pairs, w = p.2.url ∨
            ∃ mc ∈ env.getMaximisedCandidates p.2.url, w = mc.url := by
  intro pairs
  induction pairs with
  | nil =>
    intro st
    exact ⟨[], by simp [processCandidates], by simp⟩
  | cons p rest ih =>
    intro st
    obtain ⟨idx, img⟩ := p
    have hstep := fetchImageFromURL_trace env st img.url idx img.skipMaximisation
    have hmono := fun x hx =>
      fetchImageFromURL_done_mono env st img.url idx img.skipMaximisation x hx
    rw [processCandidates]
    split
    next hmem =>
      obtain ⟨delta, hdelta, hev⟩ := ih st
      refine ⟨delta, hdelta, ?_⟩
      intro e he
      obtain ⟨w, hw, hwmem, q, hq, hqw⟩ := hev e he
      exact ⟨w, hw, hwmem, q, List.mem_cons_of_mem _ hq, hqw⟩
    next hmem =>
      obtain ⟨delta1, hdelta1, hev1⟩ := hstep
      have combine :
          ∀ (st' : FetcherState),
            (fetchImageFromURL env st img.url idx img.skipMaximisation).1 = st' →
            ∃ delta,
              (processCandidates env provider st' rest).1.trace
                = st.trace ++ delta ∧
              ∀ e ∈ delta, ∃ w, e = Event.fetchContents w ∧ w ∉ st.doneImages ∧
                ∃ p ∈ (idx, img) :: rest, w = p.2.url ∨
                  ∃ mc ∈ env.getMaximisedCandidates p.2.url, w = mc.url := by
        intro st' hfst
        rw [hfst] at hdelta1
        obtain ⟨delta2, hdelta2, hev2⟩ := ih st'
        refine ⟨delta1 ++ delta2, ?_, ?_⟩
        · rw [hdelta2, hdelta1, List.append_assoc]
        · intro e he
          rcases List.mem_append.mp he with he | he
          · obtain ⟨w, hw, hwmem, hworig⟩ := hev1 e he
            exact ⟨w, hw, hwmem, (idx, img), List.mem_cons_self _ _, hworig⟩
          · obtain ⟨w, hw, hwmem, q, hq, hqw⟩ := hev2 e he
            have hwmem' : w ∉ st.doneImages := by
              intro hcon
              have hmo := hmono w hcon
              rw [hfst] at hmo
              exact hwmem hmo
            exact ⟨w, hw, hwmem', q, List.mem_cons_of_mem _ hq, hqw⟩
      split
      next st' e2 heq => exact combine st' (by rw [heq])
      next st' heq => exact combine st' (by rw [heq])
      next st' fi heq =>
        split
        next happ => exact combine st' (by rw [heq])
        next fi' happ =>
          obtain ⟨delta, hdelta, hev⟩ := combine st' (by rw [heq])
          exact ⟨delta, hdelta, hev⟩

theorem fetchImageFromURL_ok_some (env : Env) (st : FetcherState) (url : URL)
    (id : Nat) (skipMaximisation : Bool) (st' : FetcherState)
    (img : FetchedImage)
    (h : fetchImageFromURL env st url id skipMaximisation
      = (st', .ok (some img))) :
    url ∈ st'.doneImages ∧ img.fetchedUrl ∈ st'.doneImages ∧
      img.originalUrl = url := by
  rw [fetchImageFromURL] at h
  split at h
  next stA heq =>
    injection h with h1 h2
    injection h2 with h3
    exact Option.noConfusion h3
  next stA contents mUrl heq =>
    injection h with h1 h2
    injection h2 with h3
    obtain ⟨hA, hB, hC, _, _, _, _, _⟩ :=
      commitImage_some stA url mUrl true contents img h3
    rw [h1] at hA hB
    exact ⟨hA, hB, hC⟩
  next stA heq =>
    split at h
    next hmem =>
      injection h with h1 h2
      injection h2 with h3
      exact Option.noConfusion h3
    next hmem =>
      split at h
      next st'' e2 heq2 =>
        injection h with h1 h2
        exact Except.noConfusion h2
      next st'' contents heq2 =>
        injection h with h1 h2
        injection h2 with h3
        obtain ⟨hA, hB, hC, _, _, _, _, _⟩ :=
          commitImage_some st'' url url false contents img h3
        rw [h1] at hA hB
        exact ⟨hA, hB, hC⟩

theorem processCandidates_no_error (env : Env) (provider : Provider) :
    ∀ (pairs : List (Nat × CoverArt)) (st : FetcherState),
      ∃ st' imgs flag,
        processCandidates env provider st pairs = (st', imgs, flag) := by
  intro pairs st
  exact ⟨_, _, _, rfl⟩

theorem fetchImageFromURL_allOk (env : Env) (st : FetcherState) (url : URL)
    (hT : ∀ n, env.transport n url
      = .ok { finalUrl := url, bytes := pngBytes, contentType := none })
    (hM : env.getMaximisedCandidates url = [])
    (id : Nat) (b : Bool)
    (hu : url ∉ st.doneImages) :
    fetchImageFromURL env st url id b
      = (allOkState st url, .ok (some (rawExpectedImage id url))) := by
  have hcands : (if b then [] else env.getMaximisedCandidates url)
      = ([] : List MaximisedImage) := by
    rw [hM]
    exact ite_self _
  rw [fetchImageFromURL, hcands]
  simp only [tryCandidates, if_neg hu, fetchImageContents_eq, hT,
    fetchImageContentsCore, classify_pngBytes, commitImage, allOkState,
    rawExpectedImage]
  simp [ImageType.mime, hu]

theorem expectedImage_eq (idx : Nat) (c : CoverArt) :
    expectedImage idx c = { rawExpectedImage idx c.url with
      types := c.types, comment := c.comment } := rfl

theorem processCandidates_allOk (env : Env) (provider : Provider)
    (hT : ∀ n u, env.transport n u
      = .ok { finalUrl := u, bytes := pngBytes, contentType := none })
    (hM : ∀ u, env.getMaximisedCandidates u = [])
    (hP : provider.postprocessImage = none) :
    ∀ (cs : List CoverArt) (k : Nat) (st : FetcherState),
      (∀ c ∈ cs, c.url ∉ st.doneImages) →
      (cs.map (fun c => c.url)).Nodup →
      ∃ st', processCandidates env provider st (withIndices k cs)
          = (st', expectedImages k cs, false) ∧
        ∀ u, u ∈ st'.doneImages ↔
          u ∈ cs.map (fun c => c.url) ∨ u ∈ st.doneImages := by
  intro cs
  induction cs with
  | nil =>
    intro k st hnotin hnodup
    refine ⟨st, rfl, ?_⟩
    intro u
    simp
  | cons c cs' ih =>
    intro k st hnotin hnodup
    have hcurl : c.url ∉ st.doneImages := hnotin c (List.mem_cons_self c cs')
    have hnotin' : ∀ c' ∈ cs', c'.url ∉ (allOkState st c.url).doneImages := by
      intro c' hc'
      have h1 : c'.url ∉ st.doneImages :=
        hnotin c' (List.mem_cons_of_mem c hc')
      have h2 : c.url ∉ cs'.map (fun c => c.url) := by
        rw [List.map_cons] at hnodup
        exact (List.nodup_cons.mp hnodup).1
      have h3 : c'.url ≠ c.url := by
        intro hh
        exact h2 (hh ▸ List.mem_map_of_mem (fun c => c.url) hc')
      simp [allOkState, h1, h3]
    have hnodup' : (cs'.map (fun c => c.url)).Nodup := by
      rw [List.map_cons] at hnodup
      exact (List.nodup_cons.mp hnodup).2
    obtain ⟨st', hproc, hiff⟩ := ih (k + 1) (allOkState st c.url) hnotin' hnodup'
    refine ⟨st', ?_, ?_⟩
    · rw [withIndices, processCandidates, if_neg hcurl,
        fetchImageFromURL_allOk env st c.url (fun n => hT n c.url) (hM c.url)
          k c.skipMaximisation hcurl]
      simp only [applyPostprocess, hP, hproc]
      rfl
    · intro u
      rw [hiff u]
      simp only [allOkState, List.mem_cons, List.map_cons]
      tauto

theorem fetchImagesFromProvider_allOk (env : Env) (provider : Provider)
    (st : FetcherState) (params : FetchParams) (onlyFront : Bool)
    (cs : List CoverArt)
    (hT : ∀ n u, env.transport n u
      = .ok { finalUrl := u, bytes := pngBytes, contentType := none })
    (hM : ∀ u, env.getMaximisedCandidates u = [])
    (hP : provider.postprocessImage = none)
    (hF : provider.findImages params = .ok cs)
    (hnotin : ∀ c ∈ survivors onlyFront cs, c.url ∉ st.doneImages)
    (hnodup : ((survivors onlyFront cs).map (fun c => c.url)).Nodup) :
    ∃ st', fetchImagesFromProvider env st params provider onlyFront
        = (st', .ok { images := expectedImages 0 (survivors onlyFront cs),
                      containerUrl := some params.url }) ∧
      params.url ∈ st'.doneImages ∧
      ∀ u, u ∈ st'.doneImages ↔ u = params.url ∨
        u ∈ (survivors onlyFront cs).map (fun c => c.url) ∨
        u ∈ st.doneImages := by
  have hst0 :
      ({ doneImages := st.doneImages
         fetchCount := st.fetchCount
         trace := st.trace ++ [Event.findImagesCall params.url] }
        : FetcherState).doneImages = st.doneImages := rfl
  obtain ⟨st', hproc, hiff⟩ := processCandidates_allOk env provider hT hM hP
    (survivors onlyFront cs) 0
    { doneImages := st.doneImages
      fetchCount := st.fetchCount
      trace := st.trace ++ [Event.findImagesCall params.url] }
    (by intro c hc; exact hnotin c hc) hnodup
  refine ⟨{ doneImages := params.url :: st'.doneImages
            fetchCount := st'.fetchCount
            trace := st'.trace }, ?_, ?_, ?_⟩
  · rw [fetchImagesFromProvider, hF]
    simp only [hproc]
    rfl
  · exact List.mem_cons_self _ _
  · intro u
    simp only [List.mem_cons]
    rw [hiff u]

theorem fetchImages_done_short (env : Env) (st : FetcherState)
    (params : FetchParams) (b : Bool) (h : params.url ∈ st.doneImages) :
    fetchImages env st params b
      = (st, .ok { images := [], containerUrl := none }) := by
  rw [fetchImages, if_pos h]

theorem fetchImageContentsCore_error_of_attemptFails (url : URL)
    (fileName : String) (id : Nat) (r : Except FetchError Response)
    (h : attemptFails r) :
    ∃ e, fetchImageContentsCore url fileName id r = .error e := by
  cases r with
  | error e => exact ⟨.network, rfl⟩
  | ok resp =>
    simp only [attemptFails] at h
    refine ⟨.unsupportedContent resp.contentType, ?_⟩
    rw [fetchImageContentsCore]
    simp only [h]

theorem tryCandidates_cons_mem (env : Env) (id : Nat) (st : FetcherState)
    (mc : MaximisedImage) (rest : List MaximisedImage)
    (hmem : mc.url ∈ st.doneImages) :
    tryCandidates env id st (mc :: rest) = (st, .dedupHit) := by
  rw [tryCandidates, if_pos hmem]

theorem tryCandidates_cons_ok (env : Env) (id : Nat) (st : FetcherState)
    (mc : MaximisedImage) (rest : List MaximisedImage)
    (contents : ImageContents) (hmem : mc.url ∉ st.doneImages)
    (hcore : fetchImageContentsCore mc.url (candidateName mc) id
      (env.transport st.fetchCount mc.url) = .ok contents) :
    tryCandidates env id st (mc :: rest)
      = (bumpState st mc.url, .success contents mc.url) := by
  rw [tryCandidates, if_neg hmem]
  simp only [fetchImageContents_eq]
  rw [show (if mc.filename = "" then urlBasename mc.url ("image")
    else mc.filename) = candidateName mc from rfl]
  rw [hcore]
  rfl

theorem tryCandidates_cons_err (env : Env) (id : Nat) (st : FetcherState)
    (mc : MaximisedImage) (rest : List MaximisedImage) (e : FetchError)
    (hmem : mc.url ∉ st.doneImages)
    (hcore : fetchImageContentsCore mc.url (candidateName mc) id
      (env.transport st.fetchCount mc.url) = .error e) :
    tryCandidates env id st (mc :: rest)
      = tryCandidates env id (bumpState st mc.url) rest := by
  rw [tryCandidates, if_neg hmem]
  simp only [fetchImageContents_eq]
  rw [show (if mc.filename = "" then urlBasename mc.url ("image")
    else mc.filename) = candidateName mc from rfl]
  rw [hcore]
  rfl

theorem fetchImageFromURL_eq_of_dedupHit (env : Env) (st : FetcherState)
    (url : URL) (id : Nat) (b : Bool) (st' : FetcherState)
    (h : tryCandidates env id st
      (if b then [] else env.getMaximisedCandidates url) = (st', .dedupHit)) :
    fetchImageFromURL env st url id b = (st', .ok none) := by
  rw [fetchImageFromURL, h]

theorem fetchImageFromURL_eq_of_success (env : Env) (st : FetcherState)
    (url : URL) (id : Nat) (b : Bool) (st' : FetcherState)
    (contents : ImageContents) (mUrl : URL)
    (h : tryCandidates env id st
      (if b then [] else env.getMaximisedCandidates url)
      = (st', .success contents mUrl)) :
    fetchImageFromURL env st url id b
      = ((commitImage st' url mUrl true contents).1,
         .ok (commitImage st' url mUrl true contents).2) := by
  rw [fetchImageFromURL, h]

theorem fetchImageFromURL_eq_of_exhausted (env : Env) (st : FetcherState)
    (url : URL) (id : Nat) (b : Bool) (st' : FetcherState)
    (h : tryCandidates env id st
      (if b then [] else env.getMaximisedCandidates url) = (st', .exhausted))
    (hmem : url ∉ st'.doneImages) :
    fetchImageFromURL env st url id b
      = (match fetchImageContentsCore url (urlBasename url ("image")) id
            (env.transport st'.fetchCount url) with
        | .error e => (bumpState st' url, .error e)
        | .ok contents =>
          ((commitImage (bumpState st' url) url url false contents).1,
           .ok (commitImage (bumpState st' url) url url false contents).2)) := by
  simp only [fetchImageFromURL, h, if_neg hmem, fetchImageContents_eq]
  cases hcore : fetchImageContentsCore url (urlBasename url ("image")) id
      (env.transport st'.fetchCount url) with
  | error e => rfl
  | ok contents => rfl

theorem fetchImageContentsCore_ok (url : URL) (fileName : String) (id : Nat)
    (resp : Response) (ty : ImageType) (hcl : classify resp.bytes = some ty) :
    fetchImageContentsCore url fileName id (.ok resp)
      = .ok (mkContents url fileName id resp ty) := by
  rw [fetchImageContentsCore]
  simp only [hcl]
  rfl

theorem commitImage_eq_some (st : FetcherState) (o m : URL) (w : Bool)
    (contents : ImageContents) (h : contents.fetchedUrl ∉ st.doneImages) :
    commitImage st o m w contents
      = ({ doneImages := contents.fetchedUrl :: contents.requestedUrl
             :: o :: st.doneImages
           fetchCount := st.fetchCount
           trace := st.trace },
         some { content := contents.file
                originalUrl := o
                maximisedUrl := m
                fetchedUrl := contents.fetchedUrl
                wasMaximised := w
                wasRedirected := contents.wasRedirected
                types := none
                comment := none }) := by
  rw [commitImage, if_neg h]

theorem fetchImageFromURL_exhausted_ok (env : Env) (st : FetcherState)
    (url : URL) (id : Nat) (b : Bool) (st' : FetcherState)
    (h : tryCandidates env id st
      (if b then [] else env.getMaximisedCandidates url) = (st', .exhausted))
    (hmem : url ∉ st'.doneImages) (resp : Response) (ty : ImageType)
    (htr : env.transport st'.fetchCount url = .ok resp)
    (hcl : classify resp.bytes = some ty) :
    fetchImageFromURL env st url id b
      = ((commitImage (bumpState st' url) url url false
            (mkContents url (urlBasename url ("image")) id resp ty)).1,
         .ok (commitImage (bumpState st' url) url url false
            (mkContents url (urlBasename url ("image")) id resp ty)).2) := by
  rw [fetchImageFromURL_eq_of_exhausted env st url id b st' h hmem, htr,
    fetchImageContentsCore_ok url (urlBasename url ("image")) id resp ty hcl]

theorem tryCandidates_all_fail (env : Env) (id : Nat) :
    ∀ (cands : List MaximisedImage) (st : FetcherState),
      (∀ mc ∈ cands, mc.url ∉ st.doneImages) →
      (∀ mc ∈ cands, ∀ n, attemptFails (env.transport n mc.url)) →
      ∃ st', tryCandidates env id st cands = (st', .exhausted) := by
  intro cands
  induction cands with
  | nil => intro st h1 h2; exact ⟨st, rfl⟩
  | cons mc rest ih =>
    intro st h1 h2
    obtain ⟨e, hcore⟩ := fetchImageContentsCore_error_of_attemptFails mc.url
      (candidateName mc) id (env.transport st.fetchCount mc.url)
      (h2 mc (List.mem_cons_self mc rest) st.fetchCount)
    rw [tryCandidates_cons_err env id st mc rest e
      (h1 mc (List.mem_cons_self mc rest)) hcore]
    exact ih (bumpState st mc.url)
      (fun c hc => h1 c (List.mem_cons_of_mem mc hc))
      (fun c hc => h2 c (List.mem_cons_of_mem mc hc))

theorem tryCandidates_reach_dedup (env : Env) (id : Nat) :
    ∀ (pre : List MaximisedImage) (st : FetcherState) (mc : MaximisedImage)
      (post : List MaximisedImage),
      (∀ c ∈ pre, c.url ∉ st.doneImages) →
      (∀ c ∈ pre, ∀ n, attemptFails (env.transport n c.url)) →
      mc.url ∈ st.doneImages →
      ∃ st', tryCandidates env id st (pre ++ mc :: post)
        = (st', .dedupHit) := by
  intro pre
  induction pre with
  | nil =>
    intro st mc post h1 h2 hmem
    exact ⟨st, tryCandidates_cons_mem env id st mc post hmem⟩
  | cons c pre' ih =>
    intro st mc post h1 h2 hmem
    obtain ⟨e, hcore⟩ := fetchImageContentsCore_error_of_attemptFails c.url
      (candidateName c) id (env.transport st.fetchCount c.url)
      (h2 c (List.mem_cons_self c pre') st.fetchCount)
    rw [List.cons_append, tryCandidates_cons_err env id st c (pre' ++ mc :: post)
      e (h1 c (List.mem_cons_self c pre')) hcore]
    exact ih (bumpState st c.url) mc post
      (fun c' hc' => h1 c' (List.mem_cons_of_mem c hc'))
      (fun c' hc' => h2 c' (List.mem_cons_of_mem c hc')) hmem

theorem tryCandidates_fail_then_ok (env : Env) (id : Nat) :
    ∀ (pre : List MaximisedImage) (st : FetcherState) (mc : MaximisedImage)
      (post : List MaximisedImage) (resp : Response) (ty : ImageType),
      (∀ c ∈ pre, c.url ∉ st.doneImages) →
      (∀ c ∈ pre, ∀ n, attemptFails (env.transport n c.url)) →
      mc.url ∉ st.doneImages →
      (∀ n, env.transport n mc.url = .ok resp) →
      classify resp.bytes = some ty →
      ∃ st', tryCandidates env id st (pre ++ mc :: post)
          = (st', .success (mkContents mc.url (candidateName mc) id resp ty)
              mc.url) ∧
        st'.doneImages = st.doneImages := by
  intro pre
  induction pre with
  | nil =>
    intro st mc post resp ty h1 h2 hmem htr hcl
    refine ⟨bumpState st mc.url, ?_, rfl⟩
    rw [List.nil_append]
    exact tryCandidates_cons_ok env id st mc post _ hmem
      (by rw [htr st.fetchCount, fetchImageContentsCore_ok _ _ _ _ ty hcl])
  | cons c pre' ih =>
    intro st mc post resp ty h1 h2 hmem htr hcl
    obtain ⟨e, hcore⟩ := fetchImageContentsCore_error_of_attemptFails c.url
      (candidateName c) id (env.transport st.fetchCount c.url)
      (h2 c (List.mem_cons_self c pre') st.fetchCount)
    rw [List.cons_append, tryCandidates_cons_err env id st c (pre' ++ mc :: post)
      e (h1 c (List.mem_cons_self c pre')) hcore]
    exact ih (bumpState st c.url) mc post resp ty
      (fun c' hc' => h1 c' (List.mem_cons_of_mem c hc'))
      (fun c' hc' => h2 c' (List.mem_cons_of_mem c hc')) hmem htr hcl

theorem tryCandidates_no_success (env : Env) (id : Nat)
    (hFail : ∀ n u, attemptFails (env.transport n u)) :
    ∀ (cands : List MaximisedImage) (st st' : FetcherState)
      (contents : ImageContents) (mUrl : URL),
      tryCandidates env id st cands ≠ (st', .success contents mUrl) := by
  intro cands
  induction cands with
  | nil =>
    intro st st' contents mUrl h
    rw [tryCandidates] at h
    injection h with h1 h2
    exact MaximiseResult.noConfusion h2
  | cons mc rest ih =>
    intro st st' contents mUrl h
    by_cases hmem : mc.url ∈ st.doneImages
    · rw [tryCandidates_cons_mem env id st mc rest hmem] at h
      injection h with h1 h2
      exact MaximiseResult.noConfusion h2
    · obtain ⟨e, hcore⟩ := fetchImageContentsCore_error_of_attemptFails mc.url
        (candidateName mc) id (env.transport st.fetchCount mc.url)
        (hFail st.fetchCount mc.url)
      rw [tryCandidates_cons_err env id st mc rest e hmem hcore] at h
      exact ih _ st' contents mUrl h

theorem fetchImageFromURL_no_success (env : Env) (id : Nat)
    (hFail : ∀ n u, attemptFails (env.transport n u)) (st : FetcherState)
    (url : URL) (b : Bool) (st' : FetcherState) (img : FetchedImage) :
    fetchImageFromURL env st url id b ≠ (st', .ok (some img)) := by
  intro h
  rw [fetchImageFromURL] at h
  split at h
  next stA heq =>
    injection h with h1 h2
    injection h2 with h3
    exact Option.noConfusion h3
  next stA contents mUrl heq =>
    exact tryCandidates_no_success env id hFail _ st stA contents mUrl heq
  next stA heq =>
    split at h
    next hmem =>
      injection h with h1 h2
      injection h2 with h3
      exact Option.noConfusion h3
    next hmem =>
      split at h
      next st'' e2 heq2 =>
        injection h with h1 h2
        exact Except.noConfusion h2
      next st'' contents heq2 =>
        rw [fetchImageContents_eq] at heq2
        injection heq2 with hA hB
        obtain ⟨e, hcore⟩ := fetchImageContentsCore_error_of_attemptFails url
          (urlBasename url ("image")) id (env.transport stA.fetchCount url)
          (hFail stA.fetchCount url)
        rw [hcore] at hB
        exact Except.noConfusion hB

theorem processCandidates_allFail (env : Env) (provider : Provider)
    (hFail : ∀ n u, attemptFails (env.transport n u)) :
    ∀ (pairs : List (Nat × CoverArt)) (st : FetcherState),
      (processCandidates env provider st pairs).2.1 = [] := by
  intro pairs
  induction pairs with
  | nil => intro st; rfl
  | cons p rest ih =>
    intro st
    obtain ⟨idx, img⟩ := p
    rw [processCandidates]
    split
    next hmem => exact ih st
    next hmem =>
      split
      next st' e heq => exact ih st'
      next st' heq => exact ih st'
      next st' fi heq =>
        exact absurd heq (fetchImageFromURL_no_success env idx hFail st
          img.url img.skipMaximisation st' fi)

theorem withIndices_mem {α : Type} :
    ∀ (l : List α) (k : Nat) (p : Nat × α), p ∈ withIndices k l → p.2 ∈ l := by
  intro l
  induction l with
  | nil => intro k p h; cases h
  | cons a as ih =>
    intro k p h
    rw [withIndices] at h
    rcases List.mem_cons.mp h with h | h
    · rw [h]
      exact List.mem_cons_self a as
    · exact List.mem_cons_of_mem a (ih (k + 1) p h)

theorem fetchImagesFromProvider_ok_shape (env : Env) (provider : Provider)
    (st : FetcherState) (params : FetchParams) (onlyFront : Bool)
    (cs : List CoverArt) (hF : provider.findImages params = .ok cs) :
    ∃ st' imgs, fetchImagesFromProvider env st params provider onlyFront
      = (st', .ok { images := imgs, containerUrl := some params.url }) := by
  rw [fetchImagesFromProvider, hF]
  exact ⟨_, _, rfl⟩

theorem fetchImagesFromProvider_trace (env : Env) (provider : Provider)
    (st : FetcherState) (params : FetchParams) (onlyFront : Bool)
    (cs : List CoverArt) (hF : provider.findImages params = .ok cs) :
    ∃ delta, (fetchImagesFromProvider env st params provider onlyFront).1.trace
        = st.trace ++ Event.findImagesCall params.url :: delta ∧
      ∀ e ∈ delta, ∃ w, e = Event.fetchContents w ∧ w ∉ st.doneImages ∧
        ∃ c ∈ survivors onlyFront cs, w = c.url ∨
          ∃ mc ∈ env.getMaximisedCandidates c.url, w = mc.url := by
  obtain ⟨delta, hdelta, hev⟩ := processCandidates_trace env provider
    (withIndices 0 (survivors onlyFront cs))
    { doneImages := st.doneImages
      fetchCount := st.fetchCount
      trace := st.trace ++ [Event.findImagesCall params.url] }
  refine ⟨delta, ?_, ?_⟩
  · rw [fetchImagesFromProvider, hF]
    show (if _ then _ else _ : FetcherState).trace = _
    have htr :
        ∀ r : FetcherState × List FetchedImage × Bool,
          processCandidates env provider
            { doneImages := st.doneImages
              fetchCount := st.fetchCount
              trace := st.trace ++ [Event.findImagesCall params.url] }
            (withIndices 0 (survivors onlyFront cs)) = r →
          (if r.2.2 then r.1
            else { doneImages := params.url :: r.1.doneImages
                   fetchCount := r.1.fetchCount
                   trace := r.1.trace } : FetcherState).trace
            = st.trace ++ Event.findImagesCall params.url :: delta := by
      intro r hr
      rw [hr] at hdelta
      cases hb : r.2.2 with
      | true => rw [if_pos rfl]; rw [hdelta]; simp
      | false => rw [if_neg (by simp)]; rw [hdelta]; simp
    exact htr _ rfl
  · intro e he
    obtain ⟨w, hw, hwmem, q, hq, hqw⟩ := hev e he
    exact ⟨w, hw, hwmem, q.2,
      withIndices_mem (survivors onlyFront cs) 0 q hq, hqw⟩

/-! ### Decimal representation and unique file names -/

theorem digitChar_inj :
    ∀ d < 10, ∀ e < 10, digitChar d = digitChar e → d = e := by
  decide

theorem map_digitChar_inj :
    ∀ (l1 l2 : List Nat), (∀ x ∈ l1, x < 10) → (∀ x ∈ l2, x < 10) →
      l1.map digitChar = l2.map digitChar → l1 = l2 := by
  intro l1
  induction l1 with
  | nil =>
    intro l2 h1 h2 h
    cases l2 with
    | nil => rfl
    | cons b bs => cases h
  | cons a as ih =>
    intro l2 h1 h2 h
    cases l2 with
    | nil => cases h
    | cons b bs =>
      simp only [List.map_cons, List.cons.injEq] at h
      have hab : a = b := digitChar_inj a
        (h1 a (List.mem_cons_self a as)) b (h2 b (List.mem_cons_self b bs)) h.1
      rw [hab, ih bs (fun x hx => h1 x (List.mem_cons_of_mem a hx))
        (fun x hx => h2 x (List.mem_cons_of_mem b hx)) h.2]

theorem digits_lt_ten (n : Nat) : ∀ x ∈ Nat.digits 10 n, x < 10 := by
  intro x hx
  exact Nat.digits_lt_base (by omega) hx

theorem natReprAux_digits : ∀ (fuel n : Nat), n ≤ fuel →
    natReprAux fuel n = (Nat.digits 10 n).reverse.map digitChar := by
  intro fuel
  induction fuel with
  | zero =>
    intro n hn
    obtain rfl : n = 0 := by omega
    simp [natReprAux]
  | succ fuel ih =>
    intro n hn
    cases n with
    | zero => simp [natReprAux]
    | succ m =>
      rw [natReprAux, ih ((m + 1) / 10) (by omega),
        Nat.digits_def' (by omega : 1 < 10) (Nat.succ_pos m)]
      simp

theorem natRepr_eq_digits (n : Nat) (hn : n ≠ 0) :
    natRepr n = String.mk ((Nat.digits 10 n).reverse.map digitChar) := by
  rw [natRepr, if_neg hn, natReprAux_digits n n le_rfl]

theorem natRepr_injective : ∀ i j, natRepr i = natRepr j → i = j := by
  have key : ∀ j, j ≠ 0 → natRepr j ≠ ("0") := by
    intro j hj hcon
    rw [natRepr_eq_digits j hj] at hcon
    have hdata := congrArg String.data hcon.symm
    simp only [String.data] at hdata
    have : ['0'] = ((Nat.digits 10 j).reverse.map digitChar) := hdata
    have hd : [0] = (Nat.digits 10 j).reverse := by
      apply map_digitChar_inj
      · intro x hx
        rw [List.mem_singleton] at hx
        omega
      · intro x hx
        exact digits_lt_ten j x (List.mem_reverse.mp hx)
      · exact this
    have hdig : Nat.digits 10 j = [0] := by
      have := congrArg List.reverse hd
      simpa using this.symm
    have := Nat.ofDigits_digits 10 j
    rw [hdig] at this
    simp [Nat.ofDigits] at this
    exact hj this.symm
  intro i j h
  by_cases hi : i = 0 <;> by_cases hj : j = 0
  · rw [hi, hj]
  · rw [hi] at h ⊢
    have hz : natRepr 0 = ("0") := rfl
    rw [hz] at h
    exact absurd h.symm (key j hj)
  · rw [hj] at h ⊢
    have hz : natRepr 0 = ("0") := rfl
    rw [hz] at h
    exact absurd h (key i hi)
  · rw [natRepr_eq_digits i hi, natRepr_eq_digits j hj] at h
    have hdata := congrArg String.data h
    simp only [String.data] at hdata
    have hrev := map_digitChar_inj _ _
      (fun x hx => digits_lt_ten i x (List.mem_reverse.mp hx))
      (fun x hx => digits_lt_ten j x (List.mem_reverse.mp hx)) hdata
    have hdig : Nat.digits 10 i = Nat.digits 10 j := by
      have := congrArg List.reverse hrev
      simpa using this
    have hi' := Nat.ofDigits_digits 10 i
    have hj' := Nat.ofDigits_digits 10 j
    rw [← hi', ← hj', hdig]

theorem uniqueFilename_inj (fileName : String) (ty : ImageType) :
    ∀ i j, uniqueFilename fileName i ty = uniqueFilename fileName j ty →
      i = j := by
  intro i j h
  apply natRepr_injective
  rw [uniqueFilename, uniqueFilename] at h
  have hdata := congrArg String.data h
  simp only [String.data_append] at hdata
  have h1 := List.append_cancel_right hdata
  have h2 := List.append_cancel_right h1
  have h3 := List.append_cancel_left h2
  exact congrArg String.mk h3

/-! ### Front-only filtering and result-shape lemmas -/

theorem retainOnlyFront_pos (cs : List CoverArt)
    (h : ∃ c ∈ cs, hasFrontType c = true) :
    retainOnlyFront cs = cs.filter hasFrontType := by
  rw [retainOnlyFront]
  obtain ⟨c, hc, hf⟩ := h
  have hne : cs.filter hasFrontType ≠ [] :=
    List.ne_nil_of_mem (List.mem_filter.mpr ⟨hc, hf⟩)
  rw [if_neg (by simpa [List.isEmpty_iff] using hne)]

theorem retainOnlyFront_neg (cs : List CoverArt)
    (h : ∀ c ∈ cs, hasFrontType c = false) :
    retainOnlyFront cs = cs.take 1 := by
  rw [retainOnlyFront]
  have hnil : cs.filter hasFrontType = [] := by
    rw [List.filter_eq_nil]
    intro c hc
    rw [h c hc]
    exact Bool.false_ne_true
  rw [hnil]
  rfl

theorem expectedImages_map_originalUrl :
    ∀ (k : Nat) (cs : List CoverArt),
      (expectedImages k cs).map (fun i => i.originalUrl)
        = cs.map (fun c => c.url) := by
  intro k cs
  induction cs generalizing k with
  | nil => rfl
  | cons c cs' ih =>
    simp only [expectedImages, List.map_cons, expectedImage]
    rw [ih]

theorem expectedImages_map_types :
    ∀ (k : Nat) (cs : List CoverArt),
      (expectedImages k cs).map (fun i => i.types)
        = cs.map (fun c => c.types) := by
  intro k cs
  induction cs generalizing k with
  | nil => rfl
  | cons c cs' ih =>
    simp only [expectedImages, List.map_cons, expectedImage]
    rw [ih]

theorem expectedImages_map_name :
    ∀ (k : Nat) (cs : List CoverArt),
      (expectedImages k cs).map (fun i => i.content.name)
        = (withIndices k cs).map
            (fun p => uniqueFilename (urlBasename p.2.url ("image")) p.1
              ImageType.png) := by
  intro k cs
  induction cs generalizing k with
  | nil => rfl
  | cons c cs' ih =>
    simp only [expectedImages, withIndices, List.map_cons, expectedImage]
    rw [ih]

theorem classify_pngBytes_append (rest : List Nat) :
    classify (pngBytes ++ rest) = some ImageType.png := rfl

/-! ## The claims -/

/--
C7: signature-based accept/reject with content-type diagnostics.
`fetchImageContents` accepts a transport response if and only if the leading
bytes of its body match a known image signature; in particular a body opening
with the PNG magic header is accepted even when no Content-Type header was
declared.  When no signature matches it fails with an
UnsupportedContentError carrying the declared content type, rendered for
diagnostics as the declared content type or as `unknown file type` when none
was declared.
-/
theorem signature_accept_spec :
    (∀ (url : URL) (fileName : String) (id : Nat) (resp : Response),
      (∃ c, fetchImageContentsCore url fileName id (.ok resp) = .ok c)
        ↔ classify resp.bytes ≠ none) ∧
    (∀ (url : URL) (fileName : String) (id : Nat) (resp : Response),
      classify resp.bytes = none →
      fetchImageContentsCore url fileName id (.ok resp)
        = .error (.unsupportedContent resp.contentType)) ∧
    (∀ (fileName ct : String),
      describeError fileName (.unsupportedContent (some ct))
        = "Expected \"" ++ fileName ++ "\" to be an image, but received "
          ++ ct ++ ".") ∧
    (∀ fileName : String, describeError fileName (.unsupportedContent none)
        = "Expected \"" ++ fileName ++ "\" to be an image, but received "
          ++ ("unknown file type") ++ ".") ∧
    (∀ (url furl : URL) (fileName : String) (id : Nat) (rest : List Nat),
      ∃ c, fetchImageContentsCore url fileName id
          (.ok { finalUrl := furl, bytes := pngBytes ++ rest,
                 contentType := none })
        = .ok c ∧ c.file.mimeType = ("image/png")) := by
  refine ⟨?_, ?_, ?_, ?_, ?_⟩
  · intro url fileName id resp
    constructor
    · rintro ⟨c, hc⟩ hnone
      rw [fetchImageContentsCore] at hc
      simp only [hnone] at hc
      exact Except.noConfusion hc
    · intro hne
      obtain ⟨ty, hty⟩ := Option.ne_none_iff_exists'.mp hne
      exact ⟨_, fetchImageContentsCore_ok url fileName id resp ty hty⟩
  · intro url fileName id resp h
    rw [fetchImageContentsCore]
    simp only [h]
  · intro fileName ct
    rfl
  · intro fileName
    rfl
  · intro url furl fileName id rest
    exact ⟨_, fetchImageContentsCore_ok url fileName id _ ImageType.png
      (classify_pngBytes_append rest), rfl⟩

/--
Witness for C7: a four-byte text body declared as `application/json` is
rejected with that content type in the diagnostic; the same body with no
declared content type reports an unknown file type; a PNG-signature body
with no declared content type is accepted as `image/png`.
-/
theorem signature_accept_spec_witness :
    fetchImageContentsCore ("u") ("test.jpg") 0
        (.ok { finalUrl := ("u"), bytes := [116, 101, 115, 116],
               contentType := some ("application/json") })
      = .error (.unsupportedContent (some ("application/json"))) ∧
    describeError ("test.jpg")
        (.unsupportedContent (some ("application/json")))
      = ("Expected \"test.jpg\" to be an image, but received application/json.") ∧
    describeError ("test.jpg") (.unsupportedContent none)
      = ("Expected \"test.jpg\" to be an image, but received unknown file type.") ∧
    ∃ c, fetchImageContentsCore ("u") ("test.jpg") 0
        (.ok { finalUrl := ("u"), bytes := pngBytes ++ [0xDE, 0xAD],
               contentType := none })
      = .ok c ∧ c.file.mimeType = ("image/png") := by
  refine ⟨?_, ?_, ?_, ?_⟩
  · exact signature_accept_spec.2.1 ("u") ("test.jpg") 0 _ (by decide)
  · exact signature_accept_spec.2.2.1 ("test.jpg") ("application/json")
  · exact signature_accept_spec.2.2.2.1 ("test.jpg")
  · exact signature_accept_spec.2.2.2.2 ("u") ("u") ("test.jpg") 0 [0xDE, 0xAD]

/--
C8: unique naming.  A successful fetch names its file by inserting the
candidate's numeric id between the stripped base name and the extension of
the classified type; two fetches with the same base name and distinct ids
yield distinct names; and in a provider run the id passed to each fetch is
the candidate's discovery index, so sibling resources derived from the same
base filename carry sequential suffixes `0, 1, ...` in discovery order.
-/
theorem unique_naming_spec :
    (∀ (url : URL) (fileName : String) (id : Nat) (resp : Response)
      (ty : ImageType), classify resp.bytes = some ty →
      ∃ c, fetchImageContentsCore url fileName id (.ok resp) = .ok c ∧
        c.file.name
          = stripExtension fileName ++ "." ++ natRepr id ++ "." ++ ty.ext) ∧
    (∀ (fileName : String) (ty : ImageType) (i j : Nat), i ≠ j →
      uniqueFilename fileName i ty ≠ uniqueFilename fileName j ty) ∧
    (∀ (env : Env) (provider : Provider) (st : FetcherState)
      (params : FetchParams) (cs : List CoverArt),
      (∀ n u, env.transport n u
        = .ok { finalUrl := u, bytes := pngBytes, contentType := none }) →
      (∀ u, env.getMaximisedCandidates u = []) →
      provider.postprocessImage = none →
      provider.findImages params = .ok cs →
      (∀ c ∈ cs, c.url ∉ st.doneImages) →
      (cs.map (fun c => c.url)).Nodup →
      ∃ st' imgs, fetchImagesFromProvider env st params provider false
          = (st', .ok { images := imgs, containerUrl := some params.url }) ∧
        imgs.map (fun i => i.content.name)
          = (withIndices 0 cs).map (fun p =>
              uniqueFilename (urlBasename p.2.url ("image")) p.1
                ImageType.png)) := by
  refine ⟨?_, ?_, ?_⟩
  · intro url fileName id resp ty hty
    exact ⟨_, fetchImageContentsCore_ok url fileName id resp ty hty, rfl⟩
  · intro fileName ty i j hij hcon
    exact hij (uniqueFilename_inj fileName ty i j hcon)
  · intro env provider st params cs hT hM hP hF hnotin hnodup
    have hs : survivors false cs = cs := rfl
    obtain ⟨st', heq, hmem, hiff⟩ := fetchImagesFromProvider_allOk env provider
      st params false cs hT hM hP hF (by rw [hs]; exact hnotin)
      (by rw [hs]; exact hnodup)
    rw [hs] at heq
    exact ⟨st', expectedImages 0 cs, heq, expectedImages_map_name 0 cs⟩

/--
Witness for C8: with the same base filename `cover.jpg`, discovery indices
0 and 1 produce `cover.0.png` and `cover.1.png`, which differ.
-/
theorem unique_naming_spec_witness :
    uniqueFilename ("cover.jpg") 0 ImageType.png ≠
      uniqueFilename ("cover.jpg") 1 ImageType.png ∧
    uniqueFilename ("cover.jpg") 0 ImageType.png = ("cover.0.png") ∧
    uniqueFilename ("cover.jpg") 1 ImageType.png = ("cover.1.png") := by
  refine ⟨?_, by decide, by decide⟩
  exact unique_naming_spec.2.1 ("cover.jpg") ImageType.png 0 1 (by decide)

/--
C5: redirect transparency.  When the transport reports a final URL different
from the requested one, the fetched contents carry `wasRedirected = true` and
`fetchedUrl` equal to the final URL while `requestedUrl` keeps the requested
URL; when they agree, `wasRedirected = false`.  At the `fetchImageFromURL`
level the resulting image keeps the originally requested URL in
`maximisedUrl` (and `originalUrl`) while `fetchedUrl` is the post-redirect
location.
-/
theorem redirect_transparency_spec :
    (∀ (url : URL) (fileName : String) (id : Nat) (resp : Response)
      (ty : ImageType), classify resp.bytes = some ty →
      ∃ c, fetchImageContentsCore url fileName id (.ok resp) = .ok c ∧
        c.fetchedUrl = resp.finalUrl ∧ c.requestedUrl = url ∧
        (c.wasRedirected = true ↔ resp.finalUrl ≠ url)) ∧
    (∀ (env : Env) (st : FetcherState) (url : URL) (id : Nat)
      (resp : Response) (ty : ImageType),
      env.getMaximisedCandidates url = [] →
      url ∉ st.doneImages →
      (∀ n, env.transport n url = .ok resp) →
      classify resp.bytes = some ty →
      resp.finalUrl ∉ st.doneImages →
      ∃ st' img, fetchImageFromURL env st url id false = (st', .ok (some img)) ∧
        img.fetchedUrl = resp.finalUrl ∧ img.maximisedUrl = url ∧
        img.originalUrl = url ∧ img.wasMaximised = false ∧
        (img.wasRedirected = true ↔ resp.finalUrl ≠ url)) := by
  constructor
  · intro url fileName id resp ty hty
    refine ⟨_, fetchImageContentsCore_ok url fileName id resp ty hty,
      rfl, rfl, ?_⟩
    show decide (resp.finalUrl ≠ url) = true ↔ resp.finalUrl ≠ url
    exact decide_eq_true_iff
  · intro env st url id resp ty hM hu htr hcl hfin
    have htry : tryCandidates env id st
        (if false then [] else env.getMaximisedCandidates url)
        = (st, .exhausted) := by
      show tryCandidates env id st (env.getMaximisedCandidates url) = _
      rw [hM]
      rfl
    rw [fetchImageFromURL_exhausted_ok env st url id false st htry hu resp ty
      (htr st.fetchCount) hcl]
    rw [commitImage_eq_some (bumpState st url) url url false
      (mkContents url (urlBasename url ("image")) id resp ty) hfin]
    refine ⟨_, _, rfl, rfl, rfl, rfl, rfl, ?_⟩
    show decide (resp.finalUrl ≠ url) = true ↔ resp.finalUrl ≠ url
    exact decide_eq_true_iff

/--
Witness for C5: a fetch of `https://example.com/working` answered at the
final URL `https://example.com/redirected` yields `wasRedirected = true`,
`fetchedUrl` the redirected URL and `requestedUrl` the requested one; when
the final URL is the requested one, `wasRedirected = false`.
-/
theorem redirect_transparency_spec_witness :
    (∃ c, fetchImageContentsCore ("https://example.com/working") ("test.jpg") 0
        (.ok { finalUrl := ("https://example.com/redirected")
               bytes := pngBytes
               contentType := none })
      = .ok c ∧ c.fetchedUrl = ("https://example.com/redirected") ∧
        c.requestedUrl = ("https://example.com/working") ∧
        c.wasRedirected = true) ∧
    (∃ c, fetchImageContentsCore ("https://example.com/working") ("test.jpg") 0
        (.ok { finalUrl := ("https://example.com/working")
               bytes := pngBytes
               contentType := none })
      = .ok c ∧ c.wasRedirected = false) := by
  constructor
  · obtain ⟨c, hc, h1, h2, h3⟩ := redirect_transparency_spec.1
      ("https://example.com/working") ("test.jpg") 0
      { finalUrl := ("https://example.com/redirected")
        bytes := pngBytes
        contentType := none } ImageType.png (by decide)
    exact ⟨c, hc, h1, h2, h3.mpr (by decide)⟩
  · obtain ⟨c, hc, h1, h2, h3⟩ := redirect_transparency_spec.1
      ("https://example.com/working") ("test.jpg") 0
      { finalUrl := ("https://example.com/working")
        bytes := pngBytes
        contentType := none } ImageType.png (by decide)
    refine ⟨c, hc, ?_⟩
    have hne : ¬ (("https://example.com/working") : URL)
        ≠ ("https://example.com/working") := by decide
    cases hb : c.wasRedirected with
    | false => rfl
    | true => exact absurd (h3.mp hb) hne

/--
C2: front-only filtering.  If at least one discovered candidate is
front-typed, exactly the front-typed ones are kept, independently of
discovery order; otherwise only the first-discovered candidate is kept.
The filtering happens before any fetch: every byte fetch issued by a
front-only provider run belongs to a surviving candidate (its URL or one of
its maximisation candidates), and in a fully successful run the returned
images are exactly the survivors, with their types, in discovery order.
-/
theorem frontOnly_filtering_spec :
    (∀ cs : List CoverArt, (∃ c ∈ cs, hasFrontType c = true) →
      retainOnlyFront cs = cs.filter hasFrontType) ∧
    (∀ cs : List CoverArt, (∀ c ∈ cs, hasFrontType c = false) →
      retainOnlyFront cs = cs.take 1) ∧
    (∀ (env : Env) (provider : Provider) (st : FetcherState)
      (params : FetchParams) (cs : List CoverArt),
      provider.findImages params = .ok cs →
      ∃ delta, (fetchImagesFromProvider env st params provider true).1.trace
          = st.trace ++ Event.findImagesCall params.url :: delta ∧
        ∀ e ∈ delta, ∃ w, e = Event.fetchContents w ∧
          ∃ c ∈ retainOnlyFront cs, w = c.url ∨
            ∃ mc ∈ env.getMaximisedCandidates c.url, w = mc.url) ∧
    (∀ (env : Env) (provider : Provider) (st : FetcherState)
      (params : FetchParams) (cs : List CoverArt),
      (∀ n u, env.transport n u
        = .ok { finalUrl := u, bytes := pngBytes, contentType := none }) →
      (∀ u, env.getMaximisedCandidates u = []) →
      provider.postprocessImage = none →
      provider.findImages params = .ok cs →
      (∀ c ∈ retainOnlyFront cs, c.url ∉ st.doneImages) →
      ((retainOnlyFront cs).map (fun c => c.url)).Nodup →
      ∃ st', fetchImagesFromProvider env st params provider true
          = (st', .ok { images := expectedImages 0 (retainOnlyFront cs),
                        containerUrl := some params.url }) ∧
        (expectedImages 0 (retainOnlyFront cs)).map (fun i => i.originalUrl)
          = (retainOnlyFront cs).map (fun c => c.url) ∧
        (expectedImages 0 (retainOnlyFront cs)).map (fun i => i.types)
          = (retainOnlyFront cs).map (fun c => c.types)) := by
  refine ⟨retainOnlyFront_pos, retainOnlyFront_neg, ?_, ?_⟩
  · intro env provider st params cs hF
    obtain ⟨delta, hdelta, hev⟩ := fetchImagesFromProvider_trace env provider
      st params true cs hF
    refine ⟨delta, hdelta, ?_⟩
    intro e he
    obtain ⟨w, hw, hwmem, c, hc, hcw⟩ := hev e he
    exact ⟨w, hw, c, hc, hcw⟩
  · intro env provider st params cs hT hM hP hF hnotin hnodup
    have hs : survivors true cs = retainOnlyFront cs := rfl
    obtain ⟨st', heq, hmem, hiff⟩ := fetchImagesFromProvider_allOk env provider
      st params true cs hT hM hP hF (by rw [hs]; exact hnotin)
      (by rw [hs]; exact hnodup)
    rw [hs] at heq
    exact ⟨st', heq, expectedImages_map_originalUrl 0 (retainOnlyFront cs),
      expectedImages_map_types 0 (retainOnlyFront cs)⟩

/--
Witness for C2: with a back-typed candidate discovered before a front-typed
one, filtering keeps exactly the front-typed candidate; with only
medium- and back-typed candidates, it keeps exactly the first.
-/
theorem frontOnly_filtering_spec_witness :
    retainOnlyFront
        [{ url := ("https://example.com/2"), types := some [ArtworkType.back],
           comment := none, skipMaximisation := false },
         { url := ("https://example.com/1"), types := some [ArtworkType.front],
           comment := none, skipMaximisation := false }]
      = [{ url := ("https://example.com/1"), types := some [ArtworkType.front],
           comment := none, skipMaximisation := false }] ∧
    retainOnlyFront
        [{ url := ("https://example.com/1"), types := some [ArtworkType.medium],
           comment := none, skipMaximisation := false },
         { url := ("https://example.com/2"), types := some [ArtworkType.back],
           comment := none, skipMaximisation := false }]
      = [{ url := ("https://example.com/1"), types := some [ArtworkType.medium],
           comment := none, skipMaximisation := false }] := by
  constructor
  · rw [frontOnly_filtering_spec.1 _ (by decide)]
    decide
  · rw [frontOnly_filtering_spec.2.1 _ (by decide)]
    decide

theorem fetchImageFromURL_fails (env : Env) (st : FetcherState) (url : URL)
    (id : Nat) (b : Bool) (hM : env.getMaximisedCandidates url = [])
    (hu : url ∉ st.doneImages)
    (hfail : attemptFails (env.transport st.fetchCount url)) :
    ∃ e, fetchImageFromURL env st url id b = (bumpState st url, .error e) := by
  have htry : tryCandidates env id st
      (if b then [] else env.getMaximisedCandidates url)
      = (st, .exhausted) := by
    have hcands : (if b then [] else env.getMaximisedCandidates url)
        = ([] : List MaximisedImage) := by
      rw [hM]
      exact ite_self _
    rw [hcands]
    rfl
  obtain ⟨e, hcore⟩ := fetchImageContentsCore_error_of_attemptFails url
    (urlBasename url ("image")) id (env.transport st.fetchCount url) hfail
  refine ⟨e, ?_⟩
  rw [fetchImageFromURL_eq_of_exhausted env st url id b st htry hu, hcore]

/--
C6: per-candidate failure isolation.  Whenever discovery succeeds, the
provider-page request itself resolves successfully with the page URL as
`containerUrl`, no matter how the per-candidate fetches fare; when every
fetch attempt fails (transport error or unsupported content), the request
resolves with an empty image list rather than an error; and a failing
candidate removes only itself: with candidates `c1, c2` where every fetch of
`c1.url` fails and `c2.url` serves a PNG, the result is exactly the image of
`c2`.
-/
theorem failure_isolation_spec :
    (∀ (env : Env) (provider : Provider) (st : FetcherState)
      (params : FetchParams) (b : Bool) (cs : List CoverArt),
      provider.findImages params = .ok cs →
      ∃ st' imgs, fetchImagesFromProvider env st params provider b
        = (st', .ok { images := imgs, containerUrl := some params.url })) ∧
    (∀ (env : Env) (provider : Provider) (st : FetcherState)
      (params : FetchParams) (b : Bool) (cs : List CoverArt),
      (∀ n u, attemptFails (env.transport n u)) →
      provider.findImages params = .ok cs →
      ∃ st', fetchImagesFromProvider env st params provider b
        = (st', .ok { images := [], containerUrl := some params.url })) ∧
    (∀ (env : Env) (provider : Provider) (st : FetcherState)
      (params : FetchParams) (c1 c2 : CoverArt),
      provider.findImages params = .ok [c1, c2] →
      (∀ n, attemptFails (env.transport n c1.url)) →
      (∀ n, env.transport n c2.url
        = .ok { finalUrl := c2.url, bytes := pngBytes, contentType := none }) →
      env.getMaximisedCandidates c1.url = [] →
      env.getMaximisedCandidates c2.url = [] →
      provider.postprocessImage = none →
      c1.url ∉ st.doneImages → c2.url ∉ st.doneImages →
      ∃ st', fetchImagesFromProvider env st params provider false
        = (st', .ok { images := [expectedImage 1 c2],
                      containerUrl := some params.url })) := by
  refine ⟨?_, ?_, ?_⟩
  · intro env provider st params b cs hF
    exact fetchImagesFromProvider_ok_shape env provider st params b cs hF
  · intro env provider st params b cs hFail hF
    rw [fetchImagesFromProvider, hF]
    obtain ⟨stP, imgsP, flagP, hproc⟩ := processCandidates_no_error env provider
      (withIndices 0 (survivors b cs))
      { doneImages := st.doneImages
        fetchCount := st.fetchCount
        trace := st.trace ++ [Event.findImagesCall params.url] }
    have hnil := processCandidates_allFail env provider hFail
      (withIndices 0 (survivors b cs))
      { doneImages := st.doneImages
        fetchCount := st.fetchCount
        trace := st.trace ++ [Event.findImagesCall params.url] }
    rw [hproc] at hnil
    simp only [hproc]
    rw [show imgsP = [] from hnil]
    exact ⟨_, rfl⟩
  · intro env provider st params c1 c2 hF hfail1 hok2 hM1 hM2 hP hu1 hu2
    simp only [fetchImagesFromProvider, hF]
    have hsurv : survivors false [c1, c2] = [c1, c2] := rfl
    rw [hsurv]
    have hwi : withIndices 0 [c1, c2] = [(0, c1), (1, c2)] := rfl
    rw [hwi]
    set st0 : FetcherState :=
      { doneImages := st.doneImages
        fetchCount := st.fetchCount
        trace := st.trace ++ [Event.findImagesCall params.url] } with hst0
    have hu1' : c1.url ∉ st0.doneImages := hu1
    obtain ⟨e, hf1⟩ := fetchImageFromURL_fails env st0 c1.url 0
      c1.skipMaximisation hM1 hu1' (hfail1 st0.fetchCount)
    have hu2' : c2.url ∉ (bumpState st0 c1.url).doneImages := hu2
    have hf2 := fetchImageFromURL_allOk env (bumpState st0 c1.url) c2.url
      hok2 hM2 1 c2.skipMaximisation hu2'
    rw [processCandidates, if_neg hu1']
    simp only [hf1]
    rw [processCandidates, if_neg hu2']
    simp only [hf2, applyPostprocess, hP]
    rw [show ({ rawExpectedImage 1 c2.url with
      types := c2.types, comment := c2.comment } : FetchedImage)
      = expectedImage 1 c2 from rfl]
    exact ⟨_, rfl⟩

/--
Witness for C6: concrete run with two candidates where every transport call
fails: the provider request still resolves, with an empty image list and the
page URL as container.
-/
theorem failure_isolation_spec_witness :
    ∃ st', fetchImagesFromProvider
        { transport := fun _ _ => .error .network
          getMaximisedCandidates := fun _ => []
          getProvider := fun _ => none }
        initialState { url := ("page"), types := none, comment := none }
        { findImages := fun _ => .ok
            [{ url := ("u1"), types := none, comment := none,
               skipMaximisation := false },
             { url := ("u2"), types := none, comment := none,
               skipMaximisation := false }]
          postprocessImage := none } false
      = (st', .ok { images := [], containerUrl := some ("page") }) := by
  exact failure_isolation_spec.2.1
    { transport := fun _ _ => .error .network
      getMaximisedCandidates := fun _ => []
      getProvider := fun _ => none }
    { findImages := fun _ => .ok
        [{ url := ("u1"), types := none, comment := none,
           skipMaximisation := false },
         { url := ("u2"), types := none, comment := none,
           skipMaximisation := false }]
      postprocessImage := none }
    initialState { url := ("page"), types := none, comment := none } false _
    (fun n u => by constructor) rfl

theorem tryCandidates_trace_head (env : Env) (id : Nat) (st : FetcherState)
    (mc : MaximisedImage) (rest : List MaximisedImage)
    (hmem : mc.url ∉ st.doneImages) :
    ∃ delta, (tryCandidates env id st (mc :: rest)).1.trace
      = st.trace ++ Event.fetchContents mc.url :: delta := by
  cases hcore : fetchImageContentsCore mc.url (candidateName mc) id
      (env.transport st.fetchCount mc.url) with
  | ok contents =>
    rw [tryCandidates_cons_ok env id st mc rest contents hmem hcore]
    exact ⟨[], rfl⟩
  | error e =>
    rw [tryCandidates_cons_err env id st mc rest e hmem hcore]
    obtain ⟨delta, hdelta, _⟩ := tryCandidates_trace env id rest
      (bumpState st mc.url)
    refine ⟨delta, ?_⟩
    rw [hdelta]
    show (st.trace ++ [Event.fetchContents mc.url]) ++ delta = _
    simp

theorem fetchImageFromURL_trace_head (env : Env) (st : FetcherState)
    (url : URL) (id : Nat) (c1 : MaximisedImage) (rest : List MaximisedImage)
    (hgen : env.getMaximisedCandidates url = c1 :: rest)
    (h1 : c1.url ∉ st.doneImages) :
    ∃ delta, (fetchImageFromURL env st url id false).1.trace
      = st.trace ++ Event.fetchContents c1.url :: delta := by
  obtain ⟨delta, hdelta⟩ := tryCandidates_trace_head env id st c1 rest h1
  have hdelta' : (tryCandidates env id st
      (if false then [] else env.getMaximisedCandidates url)).1.trace
      = st.trace ++ Event.fetchContents c1.url :: delta := by
    show (tryCandidates env id st (env.getMaximisedCandidates url)).1.trace = _
    rw [hgen]
    exact hdelta
  rw [fetchImageFromURL]
  split
  next st' heq =>
    rw [heq] at hdelta'
    exact ⟨delta, hdelta'⟩
  next st' contents mUrl heq =>
    rw [heq] at hdelta'
    rw [commitImage_trace]
    exact ⟨delta, hdelta'⟩
  next st' heq =>
    rw [heq] at hdelta'
    have hdelta2 : st'.trace
        = st.trace ++ Event.fetchContents c1.url :: delta := hdelta'
    split
    next hmem => exact ⟨delta, hdelta2⟩
    next hmem =>
      split
      next st'' e2 heq2 =>
        rw [fetchImageContents_eq] at heq2
        injection heq2 with hA hB
        subst hA
        refine ⟨delta ++ [Event.fetchContents url], ?_⟩
        show st'.trace ++ [Event.fetchContents url] = _
        rw [hdelta2]
        simp
      next st'' contents heq2 =>
        rw [fetchImageContents_eq] at heq2
        injection heq2 with hA hB
        subst hA
        rw [commitImage_trace]
        refine ⟨delta ++ [Event.fetchContents url], ?_⟩
        show st'.trace ++ [Event.fetchContents url] = _
        rw [hdelta2]
        simp

/--
C3: maximisation fallback chain.  With maximised candidates `c1 :: rest`,
the first fetch attempt is for `c1`; with candidates `[c1, c2]`, if every
fetch of `c1` fails and `c2` succeeds, the image of `c2` is returned with
`wasMaximised = true`; if both fail, the original unmaximised URL is fetched
and its content returned (with `wasMaximised = false`); and when the
generator yields nothing or `skipMaximisation` is set, the original URL is
fetched with `wasMaximised = false`.
-/
theorem maximisation_fallback_spec :
    (∀ (env : Env) (st : FetcherState) (url : URL) (id : Nat)
      (c1 : MaximisedImage) (rest : List MaximisedImage),
      env.getMaximisedCandidates url = c1 :: rest →
      c1.url ∉ st.doneImages →
      ∃ delta, (fetchImageFromURL env st url id false).1.trace
        = st.trace ++ Event.fetchContents c1.url :: delta) ∧
    (∀ (env : Env) (st : FetcherState) (url : URL) (id : Nat)
      (c1 c2 : MaximisedImage) (resp : Response) (ty : ImageType),
      env.getMaximisedCandidates url = [c1, c2] →
      c1.url ∉ st.doneImages → c2.url ∉ st.doneImages →
      (∀ n, attemptFails (env.transport n c1.url)) →
      (∀ n, env.transport n c2.url = .ok resp) →
      classify resp.bytes = some ty →
      resp.finalUrl ∉ st.doneImages →
      ∃ st' img, fetchImageFromURL env st url id false
          = (st', .ok (some img)) ∧
        img.wasMaximised = true ∧ img.maximisedUrl = c2.url ∧
        img.fetchedUrl = resp.finalUrl ∧ img.originalUrl = url ∧
        img.content = (mkContents c2.url (candidateName c2) id resp ty).file) ∧
    (∀ (env : Env) (st : FetcherState) (url : URL) (id : Nat)
      (c1 c2 : MaximisedImage) (resp : Response) (ty : ImageType),
      env.getMaximisedCandidates url = [c1, c2] →
      c1.url ∉ st.doneImages → c2.url ∉ st.doneImages →
      (∀ n, attemptFails (env.transport n c1.url)) →
      (∀ n, attemptFails (env.transport n c2.url)) →
      url ∉ st.doneImages →
      (∀ n, env.transport n url = .ok resp) →
      classify resp.bytes = some ty →
      resp.finalUrl ∉ st.doneImages →
      ∃ st' img, fetchImageFromURL env st url id false
          = (st', .ok (some img)) ∧
        img.wasMaximised = false ∧ img.maximisedUrl = url ∧
        img.originalUrl = url ∧ img.fetchedUrl = resp.finalUrl ∧
        img.content = (mkContents url (urlBasename url ("image")) id resp
          ty).file) ∧
    (∀ (env : Env) (st : FetcherState) (url : URL) (id : Nat) (b : Bool)
      (resp : Response) (ty : ImageType),
      (b = true ∨ env.getMaximisedCandidates url = []) →
      url ∉ st.doneImages →
      (∀ n, env.transport n url = .ok resp) →
      classify resp.bytes = some ty →
      resp.finalUrl ∉ st.doneImages →
      ∃ st' img, fetchImageFromURL env st url id b = (st', .ok (some img)) ∧
        img.wasMaximised = false ∧ img.maximisedUrl = url ∧
        img.originalUrl = url) := by
  refine ⟨fetchImageFromURL_trace_head, ?_, ?_, ?_⟩
  · intro env st url id c1 c2 resp ty hgen h1 h2 hfail1 hok2 hcl hfin
    have hpre : ∀ c ∈ [c1], c.url ∉ st.doneImages := by
      intro c hc
      rw [List.mem_singleton] at hc
      rw [hc]
      exact h1
    have hpre2 : ∀ c ∈ [c1], ∀ n, attemptFails (env.transport n c.url) := by
      intro c hc
      rw [List.mem_singleton] at hc
      rw [hc]
      exact hfail1
    obtain ⟨st', htry, hdone⟩ := tryCandidates_fail_then_ok env id [c1] st c2
      [] resp ty hpre hpre2 h2 hok2 hcl
    have htry' : tryCandidates env id st
        (if false then [] else env.getMaximisedCandidates url)
        = (st', .success (mkContents c2.url (candidateName c2) id resp ty)
            c2.url) := by
      show tryCandidates env id st (env.getMaximisedCandidates url) = _
      rw [hgen]
      exact htry
    rw [fetchImageFromURL_eq_of_success env st url id false st' _ _ htry']
    rw [commitImage_eq_some st' url c2.url true
      (mkContents c2.url (candidateName c2) id resp ty)
      (by rw [hdone]; exact hfin)]
    exact ⟨_, _, rfl, rfl, rfl, rfl, rfl, rfl⟩
  · intro env st url id c1 c2 resp ty hgen h1 h2 hfail1 hfail2 hu horig hcl
      hfin
    have hmemall : ∀ mc ∈ [c1, c2], mc.url ∉ st.doneImages := by
      intro mc hmc
      rcases List.mem_cons.mp hmc with h | h
      · rw [h]; exact h1
      · rw [List.mem_singleton] at h; rw [h]; exact h2
    have hfailall : ∀ mc ∈ [c1, c2], ∀ n,
        attemptFails (env.transport n mc.url) := by
      intro mc hmc
      rcases List.mem_cons.mp hmc with h | h
      · rw [h]; exact hfail1
      · rw [List.mem_singleton] at h; rw [h]; exact hfail2
    obtain ⟨st', htry⟩ := tryCandidates_all_fail env id [c1, c2] st hmemall
      hfailall
    have htry' : tryCandidates env id st
        (if false then [] else env.getMaximisedCandidates url)
        = (st', .exhausted) := by
      show tryCandidates env id st (env.getMaximisedCandidates url) = _
      rw [hgen]
      exact htry
    have hdone : st'.doneImages = st.doneImages := by
      have := tryCandidates_doneImages env id
        (if false then [] else env.getMaximisedCandidates url) st
      rw [htry'] at this
      exact this
    rw [fetchImageFromURL_exhausted_ok env st url id false st' htry'
      (by rw [hdone]; exact hu) resp ty (horig st'.fetchCount) hcl]
    rw [commitImage_eq_some (bumpState st' url) url url false
      (mkContents url (urlBasename url ("image")) id resp ty)
      (by show resp.finalUrl ∉ st'.doneImages; rw [hdone]; exact hfin)]
    exact ⟨_, _, rfl, rfl, rfl, rfl, rfl, rfl⟩
  · intro env st url id b resp ty hgen hu horig hcl hfin
    have htry : tryCandidates env id st
        (if b then [] else env.getMaximisedCandidates url)
        = (st, .exhausted) := by
      have hcands : (if b then [] else env.getMaximisedCandidates url)
          = ([] : List MaximisedImage) := by
        rcases hgen with hb | hM
        · rw [hb]
          rfl
        · rw [hM]
          exact ite_self _
      rw [hcands]
      rfl
    rw [fetchImageFromURL_exhausted_ok env st url id b st htry hu resp ty
      (horig st.fetchCount) hcl]
    rw [commitImage_eq_some (bumpState st url) url url false
      (mkContents url (urlBasename url ("image")) id resp ty) hfin]
    exact ⟨_, _, rfl, rfl, rfl, rfl⟩

/--
Witness for C3: in `maxChainEnv`, fetching `orig` attempts `m1` first, falls
through to `m2` on its failure, and returns the `m2` image with
`wasMaximised = true`.
-/
theorem maximisation_fallback_spec_witness :
    (∃ delta, (fetchImageFromURL maxChainEnv initialState ("orig") 0
        false).1.trace
      = Event.fetchContents ("m1") :: delta) ∧
    ∃ st' img, fetchImageFromURL maxChainEnv initialState ("orig") 0 false
        = (st', .ok (some img)) ∧
      img.wasMaximised = true ∧ img.maximisedUrl = ("m2") := by
  constructor
  · obtain ⟨delta, hdelta⟩ := maximisation_fallback_spec.1 maxChainEnv
      initialState ("orig") 0
      { url := ("m1"), filename := ("1.png"), headers := [] }
      [{ url := ("m2"), filename := "", headers := [] }] rfl (by decide)
    exact ⟨delta, hdelta⟩
  · obtain ⟨st', img, heq, h1, h2, _⟩ := maximisation_fallback_spec.2.1
      maxChainEnv initialState ("orig") 0
      { url := ("m1"), filename := ("1.png"), headers := [] }
      { url := ("m2"), filename := "", headers := [] }
      { finalUrl := ("m2"), bytes := pngBytes, contentType := none }
      ImageType.png rfl (by decide) (by decide) (fun n => trivial)
      (fun n => rfl) (by decide) (by decide)
    exact ⟨st', img, heq, h1, h2⟩

/--
C4: provider-page exhaustion.  A URL already in the dedup set — in
particular a provider page fully exhausted by a previous call — is answered
immediately with an empty result and an unchanged state, so neither
`findImages` nor any transport call runs.  A fully successful provider run
marks the page URL resolved, making the next call for the same page
immediate and empty.  A page URL not in the dedup set is re-discovered:
`findImages` runs again, and every byte fetch of that call is for a URL that
was not already resolved on entry.
-/
theorem provider_exhaustion_spec :
    (∀ (env : Env) (st : FetcherState) (params : FetchParams) (b : Bool),
      params.url ∈ st.doneImages →
      fetchImages env st params b
        = (st, .ok { images := [], containerUrl := none })) ∧
    (∀ (env : Env) (provider : Provider) (st : FetcherState)
      (params : FetchParams) (onlyFront b2 : Bool) (cs : List CoverArt),
      env.getProvider params.url = some provider →
      params.url ∉ st.doneImages →
      provider.findImages params = .ok cs →
      (∀ n u, env.transport n u
        = .ok { finalUrl := u, bytes := pngBytes, contentType := none }) →
      (∀ u, env.getMaximisedCandidates u = []) →
      provider.postprocessImage = none →
      (∀ c ∈ survivors onlyFront cs, c.url ∉ st.doneImages) →
      ((survivors onlyFront cs).map (fun c => c.url)).Nodup →
      ∃ st', fetchImages env st params onlyFront
          = (st', .ok { images := expectedImages 0 (survivors onlyFront cs),
                        containerUrl := some params.url }) ∧
        params.url ∈ st'.doneImages ∧
        fetchImages env st' params b2
          = (st', .ok { images := [], containerUrl := none })) ∧
    (∀ (env : Env) (provider : Provider) (st : FetcherState)
      (params : FetchParams) (b : Bool) (cs : List CoverArt),
      params.url ∉ st.doneImages →
      env.getProvider params.url = some provider →
      provider.findImages params = .ok cs →
      ∃ delta, (fetchImages env st params b).1.trace
          = st.trace ++ Event.findImagesCall params.url :: delta ∧
        ∀ e ∈ delta, ∃ w, e = Event.fetchContents w ∧
          w ∉ st.doneImages) := by
  refine ⟨fetchImages_done_short, ?_, ?_⟩
  · intro env provider st params onlyFront b2 cs hprov hu hF hT hM hP hnotin
      hnodup
    obtain ⟨st', heq, hmem, hiff⟩ := fetchImagesFromProvider_allOk env provider
      st params onlyFront cs hT hM hP hF hnotin hnodup
    refine ⟨st', ?_, hmem, fetchImages_done_short env st' params b2 hmem⟩
    rw [fetchImages, if_neg hu, hprov]
    exact heq
  · intro env provider st params b cs hu hprov hF
    obtain ⟨delta, hdelta, hev⟩ := fetchImagesFromProvider_trace env provider
      st params b cs hF
    have heq : fetchImages env st params b
        = fetchImagesFromProvider env st params provider b := by
      rw [fetchImages, if_neg hu, hprov]
    rw [heq]
    refine ⟨delta, hdelta, ?_⟩
    intro e he
    obtain ⟨w, hw, hwmem, _⟩ := hev e he
    exact ⟨w, hw, hwmem⟩

/--
Witness for C4: in `okProviderEnv`, the first request for `page` fetches
both images, after which `page` is in the dedup set and a second request
returns an empty result with an unchanged state.
-/
theorem provider_exhaustion_spec_witness :
    ∃ st', fetchImages okProviderEnv initialState exPageParams false
        = (st', .ok { images := expectedImages 0 [exU1, exU2],
                      containerUrl := some ("page") }) ∧
      ("page" : URL) ∈ st'.doneImages ∧
      fetchImages okProviderEnv st' exPageParams false
        = (st', .ok { images := [], containerUrl := none }) := by
  obtain ⟨st', heq, hmem, hsecond⟩ := provider_exhaustion_spec.2.1
    okProviderEnv exPageProvider initialState exPageParams false false
    [exU1, exU2] rfl (by decide) rfl (fun n u => rfl) (fun u => rfl) rfl
    (by decide) (by decide)
  exact ⟨st', heq, hmem, hsecond⟩

theorem fetchImageFromURL_maximised_dedup (env : Env) (st : FetcherState)
    (v : URL) (id : Nat) (pre : List MaximisedImage) (mc : MaximisedImage)
    (post : List MaximisedImage)
    (hgen : env.getMaximisedCandidates v = pre ++ mc :: post)
    (hmem : mc.url ∈ st.doneImages)
    (hpre1 : ∀ c ∈ pre, c.url ∉ st.doneImages)
    (hpre2 : ∀ c ∈ pre, ∀ n, attemptFails (env.transport n c.url)) :
    ∃ st', fetchImageFromURL env st v id false = (st', .ok none) := by
  obtain ⟨st', htry⟩ := tryCandidates_reach_dedup env id pre st mc post
    hpre1 hpre2 hmem
  have htry' : tryCandidates env id st
      (if false then [] else env.getMaximisedCandidates v)
      = (st', .dedupHit) := by
    show tryCandidates env id st (env.getMaximisedCandidates v) = _
    rw [hgen]
    exact htry
  exact ⟨st', fetchImageFromURL_eq_of_dedupHit env st v id false st' htry'⟩

/--
C1 (amended): dedup idempotence for direct URLs and via maximisation.
For a URL not handled by any provider, a first `fetchImages` call that
succeeds with a non-empty result puts the URL in the dedup set, and a second
call on the same instance yields an empty images list with no state change.
Likewise, when a later request's maximisation cascade reaches a candidate
whose URL was already resolved, that request yields no result for it
(`fetchImageFromURL` produces nothing and the surrounding `fetchImages`
returns an empty list).  Provider pages obey this only once fully
exhausted — a partially exhausted page is re-fetched (see the
counterexample and C4).
-/
theorem dedup_idempotence_amended :
    (∀ (env : Env) (st : FetcherState) (params : FetchParams)
      (st1 : FetcherState) (res : FetchResult),
      env.getProvider params.url = none →
      fetchImages env st params false = (st1, .ok res) →
      res.images ≠ [] →
      fetchImages env st1 params false
        = (st1, .ok { images := [], containerUrl := none })) ∧
    (∀ (env : Env) (st : FetcherState) (v : URL) (id : Nat)
      (pre : List MaximisedImage) (mc : MaximisedImage)
      (post : List MaximisedImage),
      env.getMaximisedCandidates v = pre ++ mc :: post →
      mc.url ∈ st.doneImages →
      (∀ c ∈ pre, c.url ∉ st.doneImages) →
      (∀ c ∈ pre, ∀ n, attemptFails (env.transport n c.url)) →
      ∃ st', fetchImageFromURL env st v id false = (st', .ok none)) ∧
    (∀ (env : Env) (st : FetcherState) (params : FetchParams)
      (pre : List MaximisedImage) (mc : MaximisedImage)
      (post : List MaximisedImage),
      env.getProvider params.url = none →
      env.getMaximisedCandidates params.url = pre ++ mc :: post →
      mc.url ∈ st.doneImages →
      (∀ c ∈ pre, c.url ∉ st.doneImages) →
      (∀ c ∈ pre, ∀ n, attemptFails (env.transport n c.url)) →
      ∃ st', fetchImages env st params false
        = (st', .ok { images := [], containerUrl := none })) := by
  refine ⟨?_, fetchImageFromURL_maximised_dedup, ?_⟩
  · intro env st params st1 res hprov h hne
    by_cases hmem : params.url ∈ st.doneImages
    · rw [fetchImages_done_short env st params false hmem] at h
      injection h with h1 h2
      injection h2 with h3
      rw [← h3] at hne
      exact absurd rfl hne
    · rw [fetchImages, if_neg hmem] at h
      simp only [hprov] at h
      split at h
      next st' e heq =>
        injection h with h1 h2
        exact Except.noConfusion h2
      next st' heq =>
        injection h with h1 h2
        injection h2 with h3
        rw [← h3] at hne
        exact absurd rfl hne
      next st' img heq =>
        injection h with h1 h2
        obtain ⟨hA, _, _⟩ := fetchImageFromURL_ok_some env st params.url 0
          false st' img heq
        rw [h1] at hA
        exact fetchImages_done_short env st1 params false hA
  · intro env st params pre mc post hprov hgen hmem hpre1 hpre2
    by_cases hmem2 : params.url ∈ st.doneImages
    · exact ⟨st, fetchImages_done_short env st params false hmem2⟩
    · obtain ⟨st', hf⟩ := fetchImageFromURL_maximised_dedup env st params.url
        0 pre mc post hgen hmem hpre1 hpre2
      refine ⟨st', ?_⟩
      rw [fetchImages, if_neg hmem2]
      simp only [hprov, hf]

/--
Witness for C1 (amended): with a PNG-serving transport and no providers, a
first request for `https://example.com/1` yields one image and a second
yields none.
-/
theorem dedup_idempotence_amended_witness :
    ∃ st1 res, fetchImages
        { transport := fun _ u =>
            .ok { finalUrl := u, bytes := pngBytes, contentType := none }
          getMaximisedCandidates := fun _ => []
          getProvider := fun _ => none }
        initialState { url := ("https://example.com/1"), types := none,
                       comment := none } false
      = (st1, .ok res) ∧ res.images ≠ [] ∧
    fetchImages
        { transport := fun _ u =>
            .ok { finalUrl := u, bytes := pngBytes, contentType := none }
          getMaximisedCandidates := fun _ => []
          getProvider := fun _ => none }
        st1 { url := ("https://example.com/1"), types := none,
              comment := none } false
      = (st1, .ok { images := [], containerUrl := none }) := by
  refine ⟨_, _, rfl, by decide, ?_⟩
  exact dedup_idempotence_amended.1
    { transport := fun _ u =>
        .ok { finalUrl := u, bytes := pngBytes, contentType := none }
      getMaximisedCandidates := fun _ => []
      getProvider := fun _ => none }
    initialState
    { url := ("https://example.com/1"), types := none, comment := none }
    _ _ rfl rfl (by decide)

/--
Counterexample to C1 as stated: on the provider page `page` of
`flakyPageEnv`, the first `fetchImages` call succeeds with a non-empty
result (it fetches `u2`; `u1` fails), yet the second call for the very same
URL is again non-empty (it re-discovers the page and fetches `u1`) instead
of empty — the repository's own test `allows re-fetching provider URL for
which some images failed previously` asserts exactly this behaviour.
-/
theorem dedup_idempotence_counterexample :
    flakyFirstCall.2.toOption.map (fun r => r.images.isEmpty) = some false ∧
    flakySecondCall.2.toOption.map (fun r => r.images.isEmpty) = some false := by
  exact ⟨rfl, rfl⟩

end MB
